import Mathlib

/-!
Verification of the mbuild path-generation core.

This file embeds, in Lean 4, the parts of the repository relevant to the
frozen claims:

* `mbuild/conformations.py` — `random_walk`, `_next_coordinate`,
  `_check_system`;
* `mbuild/path.py` — `HardSphereRandomWalk.generate`, `_next_coordinate`,
  `_check_path`;
* `mbuild/periodic_kdtree.py` — `_gen_relevant_images`,
  `PeriodicKDTree.__init__`, `PeriodicKDTree.__query_ball_point`.

Real-valued geometry (the direction sampler, distance checks) is embedded
over `ℝ`.  The periodic KD-tree wrapper is embedded over `ℚ`, which keeps it
executable; comparisons of Euclidean distances against a radius are embedded
as the equivalent squared comparisons (valid because distances are
non-negative; the equivalence is proved below).  The growth loop is embedded
with the pseudo-random draws passed in as explicit streams and the
accept/reject check as an explicit function parameter, matching the way the
Python code threads `np.random` state and dispatches to `_check_system` /
`_check_path`.
-/

/-- A 3-component real vector, the shape of one coordinate row in the
Python code (`np.zeros(3)` etc.). -/
structure Vec3 where
  x : ℝ
  y : ℝ
  z : ℝ

namespace Vec3

theorem ext_iff' {a b : Vec3} : a = b ↔ a.x = b.x ∧ a.y = b.y ∧ a.z = b.z := by
  constructor
  · rintro rfl; exact ⟨rfl, rfl, rfl⟩
  · rintro ⟨hx, hy, hz⟩; cases a; cases b; simp_all

instance : Zero Vec3 := ⟨⟨0, 0, 0⟩⟩

instance : Add Vec3 := ⟨fun a b => ⟨a.x + b.x, a.y + b.y, a.z + b.z⟩⟩

instance : Sub Vec3 := ⟨fun a b => ⟨a.x - b.x, a.y - b.y, a.z - b.z⟩⟩

instance : SMul ℝ Vec3 := ⟨fun c v => ⟨c * v.x, c * v.y, c * v.z⟩⟩

theorem zero_def : (0 : Vec3) = ⟨0, 0, 0⟩ := rfl

theorem add_def (a b : Vec3) : a + b = ⟨a.x + b.x, a.y + b.y, a.z + b.z⟩ := rfl

theorem sub_def (a b : Vec3) : a - b = ⟨a.x - b.x, a.y - b.y, a.z - b.z⟩ := rfl

theorem smul_def (c : ℝ) (v : Vec3) : c • v = ⟨c * v.x, c * v.y, c * v.z⟩ := rfl

/-- `np.dot` for 3-vectors. -/
def dot (a b : Vec3) : ℝ := a.x * b.x + a.y * b.y + a.z * b.z

/-- Squared Euclidean norm. -/
def normSq (v : Vec3) : ℝ := v.x ^ 2 + v.y ^ 2 + v.z ^ 2

/-- `np.linalg.norm` for 3-vectors. -/
noncomputable def norm (v : Vec3) : ℝ := Real.sqrt (normSq v)

/-- Elementwise division of a vector by a scalar (`v / c` in numpy). -/
noncomputable def vdiv (v : Vec3) (c : ℝ) : Vec3 := ⟨v.x / c, v.y / c, v.z / c⟩

/-- Squared Euclidean distance between two points. -/
def distSq (a b : Vec3) : ℝ := normSq (a - b)

/-- Euclidean distance between two points
(`np.linalg.norm(xyz - current_xyz)`). -/
noncomputable def dist (a b : Vec3) : ℝ := Real.sqrt (distSq a b)

theorem normSq_nonneg (v : Vec3) : 0 ≤ normSq v := by
  have hx := sq_nonneg v.x
  have hy := sq_nonneg v.y
  have hz := sq_nonneg v.z
  unfold normSq; linarith

theorem dist_nonneg (a b : Vec3) : 0 ≤ dist a b := Real.sqrt_nonneg _

theorem norm_nonneg (v : Vec3) : 0 ≤ norm v := Real.sqrt_nonneg _

theorem normSq_eq_dot (v : Vec3) : normSq v = dot v v := by
  unfold normSq dot; ring

theorem norm_sq_eq (v : Vec3) : norm v ^ 2 = normSq v :=
  Real.sq_sqrt (normSq_nonneg v)

theorem normSq_eq_zero_iff {v : Vec3} : normSq v = 0 ↔ v = 0 := by
  constructor
  · intro h
    have hx := sq_nonneg v.x
    have hy := sq_nonneg v.y
    have hz := sq_nonneg v.z
    have h' : v.x ^ 2 = 0 ∧ v.y ^ 2 = 0 ∧ v.z ^ 2 = 0 := by
      unfold normSq at h
      refine ⟨by linarith, by linarith, by linarith⟩
    rw [ext_iff']
    refine ⟨pow_eq_zero_iff two_ne_zero |>.mp h'.1,
      pow_eq_zero_iff two_ne_zero |>.mp h'.2.1,
      pow_eq_zero_iff two_ne_zero |>.mp h'.2.2⟩
  · rintro rfl; simp [normSq, zero_def]

theorem norm_eq_zero_iff {v : Vec3} : norm v = 0 ↔ v = 0 := by
  rw [norm, Real.sqrt_eq_zero (normSq_nonneg v), normSq_eq_zero_iff]

theorem norm_pos_of_ne_zero {v : Vec3} (h : v ≠ 0) : 0 < norm v :=
  lt_of_le_of_ne (norm_nonneg v) (fun h' => h (norm_eq_zero_iff.mp h'.symm))

end Vec3

/-- The comparison `d < r` of a (non-negative) Euclidean distance against a
radius, expressed on the squared distance.  For `d = √dsq` with `dsq ≥ 0`
this is equivalent to `d < r` (proved in `sqLt_iff_sqrt_lt`); it is how all
`np.linalg.norm(...) < radius`-style comparisons of the source are embedded
without leaving the realm of polynomial arithmetic. -/
def sqLt (dsq r : ℝ) : Prop := 0 < r ∧ dsq < r ^ 2

noncomputable instance (dsq r : ℝ) : Decidable (sqLt dsq r) := by
  unfold sqLt; infer_instance

theorem sqLt_iff_sqrt_lt {dsq r : ℝ} (h : 0 ≤ dsq) :
    sqLt dsq r ↔ Real.sqrt dsq < r := by
  constructor
  · rintro ⟨hr, hlt⟩
    have := Real.sqrt_lt_sqrt h hlt
    rwa [Real.sqrt_sq hr.le] at this
  · intro hlt
    have h0 : 0 ≤ Real.sqrt dsq := Real.sqrt_nonneg _
    have hr : 0 < r := lt_of_le_of_lt h0 hlt
    refine ⟨hr, ?_⟩
    have := mul_self_lt_mul_self h0 hlt
    rw [Real.mul_self_sqrt h] at this
    nlinarith

/-- Source: `mbuild/conformations.py::_next_coordinate` (branch `pos2 is
None`) and identically `mbuild/path.py::HardSphereRandomWalk._next_coordinate`.
The two uniform draws `phi ∈ [0, 2π)` and `theta ∈ [0, π)` are passed in as
explicit arguments (the Python code draws them from the seeded global
`np.random` stream). -/
noncomputable def next_coordinate_first (bond_L : ℝ) (pos1 : Vec3) (phi theta : ℝ) : Vec3 :=
  let next_pos : Vec3 :=
    ⟨bond_L * Real.sin theta * Real.cos phi,
     bond_L * Real.sin theta * Real.sin phi,
     bond_L * Real.cos theta⟩
  pos1 + next_pos

/-- `v / np.linalg.norm(v)`: the normalisation step used twice in
`_next_coordinate`. -/
noncomputable def unitVec (v : Vec3) : Vec3 := Vec3.vdiv v (Vec3.norm v)

/-- `r - np.dot(r, v1_norm) * v1_norm`: the projection-removal step of
`_next_coordinate`. -/
noncomputable def perpComponent (r u : Vec3) : Vec3 := r - (Vec3.dot r u) • u

/-- Source: `mbuild/conformations.py::_next_coordinate` (branch with `pos2`)
and identically `mbuild/path.py::HardSphereRandomWalk._next_coordinate`.
`theta` is the uniform draw from `[min_angle, max_angle]` and `r` the uniform
random 3-vector `np.random.rand(3) - 0.5`; both are passed in explicitly.
Note the source computes `v1 = pos2 - pos1`. -/
noncomputable def next_coordinate (bond_L : ℝ) (pos1 pos2 : Vec3) (theta : ℝ) (r : Vec3) : Vec3 :=
  let v1 : Vec3 := pos2 - pos1
  let v1_norm : Vec3 := unitVec v1
  let r_perp : Vec3 := perpComponent r v1_norm
  let r_perp_norm : Vec3 := unitVec r_perp
  let v2 : Vec3 := (Real.cos theta) • v1_norm + (Real.sin theta) • r_perp_norm
  pos1 + bond_L • v2

/-- The spec's description of the subsequent-point sampler, for comparison
with `next_coordinate`.  Modelled from the spec: "compute the unit bond
vector `v1 = normalize(pos1 - pos2)` … New direction =
`cos(θ)·v1 + sin(θ)·r_perp`; candidate = `pos1 + bond_length × direction`."
It differs from the source only in the orientation of `v1`. -/
noncomputable def next_coordinate_spec (bond_L : ℝ) (pos1 pos2 : Vec3) (theta : ℝ) (r : Vec3) : Vec3 :=
  let v1 : Vec3 := pos1 - pos2
  let v1_norm : Vec3 := unitVec v1
  let r_perp : Vec3 := perpComponent r v1_norm
  let r_perp_norm : Vec3 := unitVec r_perp
  let v2 : Vec3 := (Real.cos theta) • v1_norm + (Real.sin theta) • r_perp_norm
  pos1 + bond_L • v2

/-! ## The growth controller (rejection loop)

`mbuild/path.py::HardSphereRandomWalk.generate` and
`mbuild/conformations.py::random_walk` share the same control flow; the
embedding below follows `generate` (which additionally records bonds).  The
candidate sampler and the accept/reject check are passed in as parameters
(`next`, `check`); the real instantiations `walkNext`, `checkSystemR` and
`checkPathR` are defined below.  `check` receives the coordinate list with
the tentative candidate written at slot `count + 1`, together with the
current (pre-increment) value of `count`, exactly the data the Python
methods read. -/

/-- The mutable state of `HardSphereRandomWalk` during `generate`:
`self.coordinates` (a fixed-length array, zero-filled), `self.bonds`,
`self.count` and `self.attempts`. -/
structure WalkState (V : Type) where
  coordinates : List V
  bonds : List (ℕ × ℕ)
  count : ℕ
  attempts : ℕ
deriving DecidableEq

/-- Outcome of running `generate`: normal termination, the `RuntimeError`
raised on budget exhaustion (carrying `self.count` as the error message
does), or running out of fuel (the Python loop has no fuel bound; a run
that never terminates is `outOfFuel` for every fuel value). -/
inductive WalkResult (V : Type) where
  | success (s : WalkState V)
  | exhausted (count : ℕ)
  | outOfFuel (s : WalkState V)
deriving DecidableEq

/-- One iteration of the `while self.count < self.N - 1` body of
`HardSphereRandomWalk.generate` (identically, of the `while count < N - 1`
body of `random_walk`), up to but not including the budget check:
propose a candidate, write it at slot `count + 1`, then either accept
(record the bond `(count, count+1)`, increment `count` and `attempts`) or
reject (zero the trial slot, increment only `attempts`). -/
def walkStep {V : Type} [Zero V] (next : WalkState V → V)
    (check : List V → ℕ → Bool) (s : WalkState V) : WalkState V :=
  let new_xyz := next s
  let coords1 := s.coordinates.set (s.count + 1) new_xyz
  if check coords1 s.count then
    { coordinates := coords1
      bonds := s.bonds ++ [(s.count, s.count + 1)]
      count := s.count + 1
      attempts := s.attempts + 1 }
  else
    { coordinates := coords1.set (s.count + 1) (0 : V)
      bonds := s.bonds
      count := s.count
      attempts := s.attempts + 1 }

/-- The `while self.count < self.N - 1` loop of
`HardSphereRandomWalk.generate`, with the in-loop budget check
`if self.attempts == self.max_attempts and self.count < self.N: raise`.
`fuel` bounds the number of iterations inspected (the source loop is
unbounded). -/
def generateLoop {V : Type} [Zero V] (N maxAttempts : ℕ)
    (next : WalkState V → V) (check : List V → ℕ → Bool) :
    ℕ → WalkState V → WalkResult V
  | 0, s => .outOfFuel s
  | fuel + 1, s =>
    if s.count < N - 1 then
      let s' := walkStep next check s
      if s'.attempts = maxAttempts ∧ s'.count < N then
        .exhausted s'.count
      else
        generateLoop N maxAttempts next check fuel s'
    else
      .success s

/-- The state right before the loop of `generate` starts:
`self.coordinates = np.zeros((N, 3))`, then `coordinates[1]` is set to the
first (unconditionally accepted) sampled point, `self.bonds = [[0, 1]]`,
`self.count = 1`, `self.attempts = 0`. -/
def initWalk {V : Type} [Zero V] (N : ℕ) (first : V) : WalkState V :=
  { coordinates := (List.replicate N (0 : V)).set 1 first
    bonds := [(0, 1)]
    count := 1
    attempts := 0 }

/-- The candidate sampler as invoked by the loop:
`self._next_coordinate(pos1=self.coordinates[self.count],
pos2=self.coordinates[self.count - 1])`, with the two pseudo-random draws of
iteration `t` supplied by the streams `thetas t` and `rs t` (the source
advances the seeded `np.random` stream once per loop iteration, i.e. per
increment of `attempts`). -/
noncomputable def walkNext (bond_L : ℝ) (thetas : ℕ → ℝ) (rs : ℕ → Vec3)
    (s : WalkState Vec3) : Vec3 :=
  next_coordinate bond_L (s.coordinates.getD s.count 0)
    (s.coordinates.getD (s.count - 1) 0) (thetas s.attempts) (rs s.attempts)

/-- Source: `mbuild/conformations.py::_check_system`.  `count` is the index
of the trial particle; the loop ranges over `system_coordinates[:count-1]`
(thereby skipping the bonded predecessor at `count - 1`) and fails as soon
as some earlier site is strictly closer than `radius` to the trial site. -/
noncomputable def check_system (system_coordinates : List Vec3) (radius : ℝ)
    (count : ℕ) : Bool :=
  @decide (∀ p ∈ system_coordinates.take (count - 1),
    ¬ sqLt (Vec3.distSq p (system_coordinates.getD count 0)) radius)
    (List.decidableBAll _ _)

/-- `_check_system` as the loop's check parameter: `random_walk` calls
`_check_system(system_coordinates=coordinates, radius=radius, count=count+1)`
with the pre-increment `count`. -/
noncomputable def checkSystemLoop (radius : ℝ) (coords : List Vec3) (count : ℕ) : Bool :=
  check_system coords radius (count + 1)

/-- The growing cubic box side of `HardSphereRandomWalk._check_path`:
`box_length = self.count * self.radius * 2.01`. -/
noncomputable def boxSide (count : ℕ) (radius : ℝ) : ℝ :=
  (count : ℝ) * radius * (201 / 100)

/-- Minimum-image convention along one axis of a periodic box of side `L`,
as applied by the freud neighbor query used in `_check_path`:
the separation is shifted by the nearest integer multiple of `L`. -/
noncomputable def minImage (L d : ℝ) : ℝ := d - L * (round (d / L) : ℤ)

/-- Squared minimum-image distance in a cubic periodic box of side `L`. -/
noncomputable def minImageDistSq (L : ℝ) (a b : Vec3) : ℝ :=
  minImage L (a - b).x ^ 2 + minImage L (a - b).y ^ 2 + minImage L (a - b).z ^ 2

/-- Source: `mbuild/path.py::HardSphereRandomWalk._check_path`.  A freud
`AABBQuery` neighbor list over `self.coordinates[: self.count + 2]` in a
periodic cubic box of side `self.count * self.radius * 2.01`, with
`r_min = 0`, `r_max = self.radius - self.tolerance` and `exclude_ii=True`;
the trial move passes iff the list is empty, i.e. iff no ordered pair of
distinct indices is at (minimum-image) distance below `r_max`.  Note there
is no exclusion of bonded pairs. -/
noncomputable def check_path (radius tolerance : ℝ) (coords : List Vec3)
    (count : ℕ) : Bool :=
  let box_length := boxSide count radius
  let cs := coords.take (count + 2)
  @decide (∀ i < cs.length, ∀ j < cs.length, i ≠ j →
    ¬ sqLt (minImageDistSq box_length (cs.getD i 0) (cs.getD j 0))
      (radius - tolerance))
    (Nat.decidableBallLT _ _)

/-! ## The periodic KD-tree wrapper (`mbuild/periodic_kdtree.py`)

Embedded over `ℚ` with points of arbitrary dimension `m` (as `Fin m → ℚ`),
mirroring the dimension-generic Python code.  The underlying
`scipy.spatial.KDTree` is an external dependency of the repository; its
radius query is embedded by its reference semantics — the list of indices of
data points within distance `≤ r` of the query point (scipy's
`query_ball_point` includes points at exactly distance `r`) — since the
KD-tree structure itself is only an optimisation of that brute-force
answer.  Distance comparisons are again embedded as squared comparisons. -/

/-- Points of dimension `m` with rational coordinates. -/
def Pt (m : ℕ) : Type := Fin m → ℚ

instance (m : ℕ) : Add (Pt m) := ⟨fun a b i => a i + b i⟩

instance (m : ℕ) : Sub (Pt m) := ⟨fun a b i => a i - b i⟩

instance (m : ℕ) : Zero (Pt m) := ⟨fun _ => 0⟩

instance (m : ℕ) : DecidableEq (Pt m) := fun a b =>
  decidable_of_iff (∀ i, a i = b i) ⟨funext, fun h i => congrFun h i⟩

/-- Squared Euclidean (p = 2) distance between two points. -/
def Pt.distSq {m : ℕ} (a b : Pt m) : ℚ := ∑ i : Fin m, (a i - b i) ^ 2

/-- The canonical-cell mapping applied per coordinate:
`x[i] - floor(x[i] / bounds[i]) * bounds[i]` when `bounds[i] > 0`, the
coordinate unchanged otherwise.  This is the mapping of
`_gen_relevant_images` (lines 48-50) and, in vectorised `np.where` form, of
`PeriodicKDTree.__init__` (lines 129-133). -/
def wrapCoord (x L : ℚ) : ℚ := if 0 < L then x - ⌊x / L⌋ * L else x

/-- `wrapCoord` applied along every axis. -/
def wrapPoint {m : ℕ} (x bounds : Pt m) : Pt m := fun i => wrapCoord (x i) (bounds i)

/-- The displacement vector `disp` of `_gen_relevant_images`:
`bounds[i]` on axis `i`, zero elsewhere. -/
def axisDisp {m : ℕ} (bounds : Pt m) (i : Fin m) : Pt m :=
  fun j => if j = i then bounds i else 0

/-- Source: `mbuild/periodic_kdtree.py::_gen_relevant_images`.  Map `x` into
the canonical cell, then for each periodic axis extend the image list: with
an unbounded search radius (`ub = none`, numpy `inf`) every image is tripled
into `(· + disp, ·, · - disp)`; with a finite radius, images shifted by
`+disp` are appended when `|real_x[i]| < ub` and images shifted by `-disp`
when `|bounds[i] - real_x[i]| < ub`, both generated from the list as it
stood before this axis's extension. -/
def genRelevantImages {m : ℕ} (x bounds : Pt m) (ub : Option ℚ) : List (Pt m) :=
  let real_x := wrapPoint x bounds
  (List.finRange m).foldl
    (fun xs i =>
      if 0 < bounds i then
        let disp := axisDisp bounds i
        match ub with
        | none => xs.flatMap (fun v => [v + disp, v, v - disp])
        | some b =>
          let e1 := if |real_x i| < b then xs.map (· + disp) else []
          let e2 := if |bounds i - real_x i| < b then xs.map (· - disp) else []
          xs ++ (e1 ++ e2)
      else xs)
    [real_x]

/-- Reference semantics of the external `scipy.spatial.KDTree.query_ball_point`
on the wrapped data: the indices (in order) of all data points at distance
`≤ r` from `x`.  scipy's radius query is inclusive of the boundary. -/
def kdQueryBallPoint {m : ℕ} (data : List (Pt m)) (x : Pt m) (r : ℚ) : List ℕ :=
  (List.range data.length).filter
    (fun i => decide (0 ≤ r ∧ Pt.distSq (data.getD i 0) x ≤ r ^ 2))

/-- The per-axis cap `self.max_distance_upper_bound` of
`PeriodicKDTree.__init__`: `np.min(np.where(bounds > 0, 0.5 * bounds, inf))`,
with `none` playing the role of `inf` (no periodic axis at all). -/
def maxDistanceUpperBound {m : ℕ} (bounds : Pt m) : Option ℚ :=
  (List.finRange m).foldl
    (fun acc i =>
      if 0 < bounds i then
        some (match acc with
          | none => bounds i / 2
          | some M => min M (bounds i / 2))
      else acc)
    none

/-- The cap `r = min(r, self.max_distance_upper_bound)` applied at the top
of `__query_ball_point` (`none` plays the role of `inf`, capping nothing). -/
def rCapped {m : ℕ} (bounds : Pt m) (r : ℚ) : ℚ :=
  match maxDistanceUpperBound bounds with
  | none => r
  | some M => min r M

/-- The canonical-cell wrapping of the data performed by
`PeriodicKDTree.__init__` before the tree is built. -/
def wrapData {m : ℕ} (bounds : Pt m) (data : List (Pt m)) : List (Pt m) :=
  data.map (fun p => wrapPoint p bounds)

/-- Source: `mbuild/periodic_kdtree.py::PeriodicKDTree.__query_ball_point`
(together with the data wrapping done in `__init__`): cap `r` at
`max_distance_upper_bound`, generate the relevant images of `x` with the
capped radius, run the ordinary radius query for every image and
concatenate (`results.extend`) the index lists. -/
def periodicQueryBallPoint {m : ℕ} (bounds : Pt m) (data : List (Pt m))
    (x : Pt m) (r : ℚ) : List ℕ :=
  (genRelevantImages x bounds (some (rCapped bounds r))).flatMap
    (fun im => kdQueryBallPoint (wrapData bounds data) im (rCapped bounds r))

/-! ## Helper lemmas -/

theorem wrapCoord_pos_spec (x L : ℚ) (hL : 0 < L) :
    0 ≤ wrapCoord x L ∧ wrapCoord x L < L ∧
      wrapCoord x L + (⌊x / L⌋ : ℚ) * L = x := by
  rw [wrapCoord, if_pos hL]
  have hfl : (⌊x / L⌋ : ℚ) ≤ x / L := Int.floor_le (x / L)
  have hfu : x / L < (⌊x / L⌋ : ℚ) + 1 := Int.lt_floor_add_one (x / L)
  have h1 : (⌊x / L⌋ : ℚ) * L ≤ x := by
    have := mul_le_mul_of_nonneg_right hfl hL.le
    rwa [div_mul_cancel₀ x hL.ne'] at this
  have h2 : x < ((⌊x / L⌋ : ℚ) + 1) * L := by
    have := mul_lt_mul_of_pos_right hfu hL
    rwa [div_mul_cancel₀ x hL.ne'] at this
  refine ⟨by linarith, by nlinarith, by ring⟩

theorem walkStep_attempts {V : Type} [Zero V] (next : WalkState V → V)
    (check : List V → ℕ → Bool) (s : WalkState V) :
    (walkStep next check s).attempts = s.attempts + 1 := by
  unfold walkStep
  simp only []
  split <;> rfl

theorem walkStep_length {V : Type} [Zero V] (next : WalkState V → V)
    (check : List V → ℕ → Bool) (s : WalkState V) :
    (walkStep next check s).coordinates.length = s.coordinates.length := by
  unfold walkStep
  simp only []
  split <;> simp

/-- Evaluation of `walkStep` on the rejection branch. -/
theorem walkStep_reject_eq {V : Type} [Zero V] (next : WalkState V → V)
    (check : List V → ℕ → Bool) (s : WalkState V)
    (h : check (s.coordinates.set (s.count + 1) (next s)) s.count = false) :
    walkStep next check s =
      ⟨(s.coordinates.set (s.count + 1) (next s)).set (s.count + 1) (0 : V),
        s.bonds, s.count, s.attempts + 1⟩ := by
  unfold walkStep
  simp only []
  rw [h]
  simp

/-- Evaluation of `walkStep` on the acceptance branch. -/
theorem walkStep_accept_eq {V : Type} [Zero V] (next : WalkState V → V)
    (check : List V → ℕ → Bool) (s : WalkState V)
    (h : check (s.coordinates.set (s.count + 1) (next s)) s.count = true) :
    walkStep next check s =
      ⟨s.coordinates.set (s.count + 1) (next s),
        s.bonds ++ [(s.count, s.count + 1)], s.count + 1, s.attempts + 1⟩ := by
  unfold walkStep
  simp only []
  rw [h]
  simp

/-- With `max_attempts = 0` the in-loop budget check `attempts == max_attempts`
can never fire: `attempts` has just been incremented, so it is at least 1 at
every comparison. -/
theorem generateLoop_max0_ne_exhausted {V : Type} [Zero V] (N : ℕ)
    (next : WalkState V → V) (check : List V → ℕ → Bool) :
    ∀ (fuel : ℕ) (s : WalkState V) (c : ℕ),
      generateLoop N 0 next check fuel s ≠ .exhausted c := by
  intro fuel
  induction fuel with
  | zero => intro s c h; exact WalkResult.noConfusion h
  | succ fuel ih =>
    intro s c h
    rw [generateLoop] at h
    by_cases hc : s.count < N - 1
    · rw [if_pos hc] at h
      have ha : (walkStep next check s).attempts = s.attempts + 1 :=
        walkStep_attempts next check s
      by_cases hx : (walkStep next check s).attempts = 0 ∧
          (walkStep next check s).count < N
      · omega
      · rw [if_neg hx] at h
        exact ih _ c h
    · rw [if_neg hc] at h
      exact WalkResult.noConfusion h

/-! ## Claim C10 -/

/-- C10: for every point and every periodic axis (`bounds i > 0`), the
canonical-cell mapping `x ↦ x - floor(x / L) * L` used by
`PeriodicKDTree.__init__` and `_gen_relevant_images` lands in `[0, L)` and
adding back the same multiple `floor(x / L) * L` of the box length recovers
the original coordinate exactly; axes with `bounds i ≤ 0` are left
unchanged. -/
theorem wrapPoint_canonical_round_trip {m : ℕ} (x bounds : Pt m) (i : Fin m) :
    (0 < bounds i →
      0 ≤ wrapPoint x bounds i ∧ wrapPoint x bounds i < bounds i ∧
        wrapPoint x bounds i + (⌊x i / bounds i⌋ : ℚ) * bounds i = x i) ∧
    (bounds i ≤ 0 → wrapPoint x bounds i = x i) := by
  constructor
  · intro hL
    exact wrapCoord_pos_spec (x i) (bounds i) hL
  · intro hL
    rw [wrapPoint, wrapCoord, if_neg (not_lt.2 hL)]

/-- Witness for C10 at concrete inputs: a periodic axis of length 2 with
coordinate 7/2, and a non-periodic axis (length -1) with coordinate 5. -/
theorem wrapPoint_canonical_round_trip_witness :
    (0 < (2 : ℚ) ∧
      (0 ≤ wrapPoint (m := 1) (fun _ => 7/2) (fun _ => 2) 0 ∧
       wrapPoint (m := 1) (fun _ => 7/2) (fun _ => 2) 0 < 2 ∧
       wrapPoint (m := 1) (fun _ => 7/2) (fun _ => 2) 0 +
         (⌊(7/2 : ℚ) / 2⌋ : ℚ) * 2 = 7/2)) ∧
    ((-1 : ℚ) ≤ 0 ∧ wrapPoint (m := 1) (fun _ => 5) (fun _ => -1) 0 = 5) :=
  ⟨⟨by norm_num,
    (wrapPoint_canonical_round_trip (m := 1) (fun _ => 7/2) (fun _ => 2) 0).1
      (by norm_num)⟩,
   ⟨by norm_num,
    (wrapPoint_canonical_round_trip (m := 1) (fun _ => 5) (fun _ => -1) 0).2
      (by norm_num)⟩⟩

/-! ## Claim C8 -/

/-- C8 counterexample: at `count = 1`, `radius = 1` the box side used by
`_check_path` is `1 * 1 * 2.01 = 2.01`, not
`count * diameter * margin = 1 * (2 * 1) * 2.01 = 4.02` as the claim's
formula (margin > 2, e.g. 2.01) would give. -/
theorem check_path_box_counterexample :
    boxSide 1 1 = 201 / 100 ∧
      boxSide 1 1 ≠ (1 : ℝ) * (2 * 1) * (201 / 100) := by
  constructor
  · rw [boxSide]; norm_num
  · rw [boxSide]; norm_num

/-- C8 (amended): the spatial index of `_check_path` is built over exactly
the prefix `coordinates[0 .. count+1]` — the check result depends only on
the first `count + 2` coordinates — inside a cubic box whose side is
`count * radius * 2.01`, i.e. `count * diameter * 1.005` with
`diameter = 2 * radius` (a margin of 1.005 over the diameter, not a margin
greater than 2). -/
theorem check_path_prefix_and_box (radius tol : ℝ) (coords coords' : List Vec3)
    (count : ℕ) (h : coords.take (count + 2) = coords'.take (count + 2)) :
    check_path radius tol coords count = check_path radius tol coords' count ∧
      boxSide count radius = (count : ℝ) * (2 * radius) * (201 / 200) := by
  constructor
  · simp only [check_path, h]
  · rw [boxSide]; ring

/-- Witness for C8's amended theorem: two coordinate lists agreeing on their
first three entries (`count = 1`) yield the same check result. -/
theorem check_path_prefix_and_box_witness :
    (([⟨0,0,0⟩, ⟨1,0,0⟩, ⟨2,0,0⟩, ⟨9,9,9⟩] : List Vec3).take 3 =
      ([⟨0,0,0⟩, ⟨1,0,0⟩, ⟨2,0,0⟩] : List Vec3).take 3) ∧
    (check_path 1 0 [⟨0,0,0⟩, ⟨1,0,0⟩, ⟨2,0,0⟩, ⟨9,9,9⟩] 1 =
        check_path 1 0 [⟨0,0,0⟩, ⟨1,0,0⟩, ⟨2,0,0⟩] 1 ∧
      boxSide 1 1 = ((1 : ℕ) : ℝ) * (2 * 1) * (201 / 200)) :=
  ⟨rfl, check_path_prefix_and_box 1 0
    [⟨0,0,0⟩, ⟨1,0,0⟩, ⟨2,0,0⟩, ⟨9,9,9⟩] [⟨0,0,0⟩, ⟨1,0,0⟩, ⟨2,0,0⟩] 1 rfl⟩

/-! ## Claim C9 -/

/-- C9: frame conditions of one iteration of the growth loop.  If the check
rejects the candidate, the trial slot `count + 1` ends up holding the zero
vector, `count` and the bond list are unchanged, `attempts` grows by one,
and every coordinate at an index `≤ count` is untouched.  If the check
accepts, the bond `(count, count+1)` is appended, `count` and `attempts`
both grow by one, and every coordinate at an index `≤ count` is again
untouched. -/
theorem walkStep_frame_effects {V : Type} [Zero V] (next : WalkState V → V)
    (check : List V → ℕ → Bool) (s : WalkState V) :
    (check (s.coordinates.set (s.count + 1) (next s)) s.count = false →
      (walkStep next check s).coordinates.getD (s.count + 1) (0 : V) = 0 ∧
      (walkStep next check s).count = s.count ∧
      (walkStep next check s).attempts = s.attempts + 1 ∧
      (walkStep next check s).bonds = s.bonds ∧
      (∀ i ≤ s.count,
        (walkStep next check s).coordinates.getD i (0 : V) =
          s.coordinates.getD i 0)) ∧
    (check (s.coordinates.set (s.count + 1) (next s)) s.count = true →
      (walkStep next check s).bonds = s.bonds ++ [(s.count, s.count + 1)] ∧
      (walkStep next check s).count = s.count + 1 ∧
      (walkStep next check s).attempts = s.attempts + 1 ∧
      (∀ i ≤ s.count,
        (walkStep next check s).coordinates.getD i (0 : V) =
          s.coordinates.getD i 0)) := by
  constructor
  · intro hrej
    rw [walkStep_reject_eq next check s hrej, List.set_set]
    refine ⟨?_, rfl, rfl, rfl, ?_⟩
    · by_cases hlen : s.count + 1 < s.coordinates.length
      · simp [List.getD_eq_getElem?_getD, List.getElem?_set_self
          (by simpa using hlen)]
      · rw [List.set_eq_of_length_le (not_lt.mp hlen)]
        simp [List.getD_eq_getElem?_getD,
          List.getElem?_eq_none (not_lt.mp hlen)]
    · intro i hi
      have hne : s.count + 1 ≠ i := by omega
      simp [List.getD_eq_getElem?_getD, List.getElem?_set_ne hne]
  · intro hacc
    rw [walkStep_accept_eq next check s hacc]
    refine ⟨rfl, rfl, rfl, ?_⟩
    intro i hi
    have hne : s.count + 1 ≠ i := by omega
    simp [List.getD_eq_getElem?_getD, List.getElem?_set_ne hne]

/-- Witness for C9 at a concrete state over `V = ℤ`: one rejecting and one
accepting iteration. -/
theorem walkStep_frame_effects_witness :
    ((walkStep (fun _ => (7 : ℤ)) (fun _ _ => false)
        ⟨[10, 20, 0, 0], [(0, 1)], 1, 0⟩).coordinates.getD 2 (0 : ℤ) = 0 ∧
      (walkStep (fun _ => (7 : ℤ)) (fun _ _ => false)
        ⟨[10, 20, 0, 0], [(0, 1)], 1, 0⟩).count = 1 ∧
      (walkStep (fun _ => (7 : ℤ)) (fun _ _ => false)
        ⟨[10, 20, 0, 0], [(0, 1)], 1, 0⟩).attempts = 0 + 1 ∧
      (walkStep (fun _ => (7 : ℤ)) (fun _ _ => false)
        ⟨[10, 20, 0, 0], [(0, 1)], 1, 0⟩).bonds = [(0, 1)] ∧
      (∀ i ≤ 1,
        (walkStep (fun _ => (7 : ℤ)) (fun _ _ => false)
          ⟨[10, 20, 0, 0], [(0, 1)], 1, 0⟩).coordinates.getD i (0 : ℤ) =
          ([10, 20, 0, 0] : List ℤ).getD i 0)) ∧
    ((walkStep (fun _ => (7 : ℤ)) (fun _ _ => true)
        ⟨[10, 20, 0, 0], [(0, 1)], 1, 0⟩).bonds = [(0, 1)] ++ [(1, 2)] ∧
      (walkStep (fun _ => (7 : ℤ)) (fun _ _ => true)
        ⟨[10, 20, 0, 0], [(0, 1)], 1, 0⟩).count = 1 + 1 ∧
      (walkStep (fun _ => (7 : ℤ)) (fun _ _ => true)
        ⟨[10, 20, 0, 0], [(0, 1)], 1, 0⟩).attempts = 0 + 1 ∧
      (∀ i ≤ 1,
        (walkStep (fun _ => (7 : ℤ)) (fun _ _ => true)
          ⟨[10, 20, 0, 0], [(0, 1)], 1, 0⟩).coordinates.getD i (0 : ℤ) =
          ([10, 20, 0, 0] : List ℤ).getD i 0)) :=
  ⟨(walkStep_frame_effects (fun _ => (7 : ℤ)) (fun _ _ => false)
      ⟨[10, 20, 0, 0], [(0, 1)], 1, 0⟩).1 rfl,
   (walkStep_frame_effects (fun _ => (7 : ℤ)) (fun _ _ => true)
      ⟨[10, 20, 0, 0], [(0, 1)], 1, 0⟩).2 rfl⟩

/-! ## Claim C1 -/

/-- C1 (amended): the budget check of the growth loop compares
`attempts == max_attempts` only immediately after incrementing `attempts`,
so with `max_attempts = 0` the structured exhaustion error is never raised
(the loop either completes or simply keeps running); in general the error
is raised, carrying the accepted count, exactly when an iteration brings
`attempts` to `max_attempts` while `count < N`. -/
theorem generateLoop_budget_exhaustion {V : Type} [Zero V] (N : ℕ)
    (next : WalkState V → V) (check : List V → ℕ → Bool) :
    (∀ (fuel : ℕ) (s : WalkState V) (c : ℕ),
      generateLoop N 0 next check fuel s ≠ .exhausted c) ∧
    (∀ (maxAttempts fuel : ℕ) (s : WalkState V),
      s.count < N - 1 →
      (walkStep next check s).attempts = maxAttempts →
      (walkStep next check s).count < N →
      generateLoop N maxAttempts next check (fuel + 1) s =
        .exhausted (walkStep next check s).count) := by
  constructor
  · exact generateLoop_max0_ne_exhausted N next check
  · intro maxAttempts fuel s hc ha hn
    rw [generateLoop, if_pos hc, if_pos ⟨ha, hn⟩]

/-- Witness for C1's amended theorem: with `max_attempts = 0` a concrete
4-step run never raises; with `max_attempts = 1` the first iteration (a
rejection) raises, reporting the accepted count 1. -/
theorem generateLoop_budget_exhaustion_witness :
    (generateLoop (V := ℤ) 4 0 (fun _ => 3) (fun _ _ => false) 5
        (initWalk 4 1) ≠ .exhausted 2) ∧
    (1 < 4 - 1 ∧
      generateLoop (V := ℤ) 4 1 (fun _ => 3) (fun _ _ => false) (2 + 1)
          (initWalk 4 1) =
        .exhausted (walkStep (fun _ => (3 : ℤ)) (fun _ _ => false)
          (initWalk 4 1)).count) :=
  ⟨(generateLoop_budget_exhaustion (V := ℤ) 4 (fun _ => 3)
      (fun _ _ => false)).1 5 (initWalk 4 1) 2,
   ⟨by decide,
    (generateLoop_budget_exhaustion (V := ℤ) 4 (fun _ => 3)
      (fun _ _ => false)).2 1 2 (initWalk 4 1) (by decide) (by decide)
      (by decide)⟩⟩

/-- C1 counterexample: with `max_attempts = 0` and `N = 4 > 2` the generator
does not fail with the exhaustion error reporting count 1 — no fuel bound
ever produces `exhausted`, and a run whose check always accepts (this is
exactly `_check_system` with `radius = 0`: no distance is `< 0`) terminates
successfully with all `N` coordinates placed. -/
theorem generateLoop_budget_counterexample :
    (generateLoop (V := Vec3) 4 0 (walkNext 1 (fun _ => 0) (fun _ => 0))
        (checkSystemLoop 0) 1000
        (initWalk 4 (next_coordinate_first 1 0 0 0)) ≠ .exhausted 1) ∧
    (generateLoop (V := ℤ) 4 0 (fun _ => 3) (fun _ _ => true) 3
        (initWalk 4 1) =
      .success ⟨[0, 1, 3, 3], [(0, 1), (1, 2), (2, 3)], 3, 2⟩) :=
  ⟨generateLoop_max0_ne_exhausted 4 _ _ 1000 _ 1, by decide⟩

/-! ## Geometry of the direction sampler -/

theorem Vec3.normSq_smul (c : ℝ) (v : Vec3) :
    Vec3.normSq (c • v) = c ^ 2 * Vec3.normSq v := by
  simp only [Vec3.normSq, Vec3.smul_def]
  ring

theorem Vec3.normSq_add' (a b : Vec3) :
    Vec3.normSq (a + b) = Vec3.normSq a + 2 * Vec3.dot a b + Vec3.normSq b := by
  simp only [Vec3.normSq, Vec3.dot, Vec3.add_def]
  ring

theorem Vec3.dot_smul_left (c : ℝ) (a b : Vec3) :
    Vec3.dot (c • a) b = c * Vec3.dot a b := by
  simp only [Vec3.dot, Vec3.smul_def]
  ring

theorem Vec3.dot_smul_right (c : ℝ) (a b : Vec3) :
    Vec3.dot a (c • b) = c * Vec3.dot a b := by
  simp only [Vec3.dot, Vec3.smul_def]
  ring

theorem Vec3.dot_comm (a b : Vec3) : Vec3.dot a b = Vec3.dot b a := by
  simp only [Vec3.dot]
  ring

theorem Vec3.sub_eq_zero_iff {a b : Vec3} : a - b = 0 ↔ a = b := by
  rw [Vec3.ext_iff' (a := a - b), Vec3.ext_iff' (a := a) (b := b)]
  simp only [Vec3.sub_def, Vec3.zero_def]
  constructor <;> intro h <;>
    exact ⟨by linarith [h.1], by linarith [h.2.1], by linarith [h.2.2]⟩

theorem Vec3.add_sub_cancel_left' (p w : Vec3) : (p + w) - p = w := by
  rw [Vec3.ext_iff']
  simp [Vec3.add_def, Vec3.sub_def]

/-- A normalised non-zero vector has unit squared norm. -/
theorem unitVec_normSq {v : Vec3} (h : v ≠ 0) : Vec3.normSq (unitVec v) = 1 := by
  have hnz : Vec3.normSq v ≠ 0 := fun h0 => h (Vec3.normSq_eq_zero_iff.mp h0)
  have hq : Vec3.normSq (unitVec v) = Vec3.normSq v / Vec3.norm v ^ 2 := by
    simp only [unitVec, Vec3.vdiv, Vec3.normSq]
    ring
  rw [hq, Vec3.norm_sq_eq]
  exact div_self hnz

/-- The projection-removal step produces a vector orthogonal to `u` whenever
`u` is a unit vector. -/
theorem perpComponent_dot {r u : Vec3} (hu : Vec3.normSq u = 1) :
    Vec3.dot (perpComponent r u) u = 0 := by
  have hq : Vec3.dot (perpComponent r u) u =
      Vec3.dot r u - Vec3.dot r u * Vec3.normSq u := by
    simp only [perpComponent, Vec3.dot, Vec3.normSq, Vec3.smul_def, Vec3.sub_def]
    ring
  rw [hq, hu]
  ring

theorem unitVec_dot_left (w u : Vec3) :
    Vec3.dot (unitVec w) u = Vec3.dot w u / Vec3.norm w := by
  simp only [unitVec, Vec3.vdiv, Vec3.dot]
  ring

/-- The offset produced by `_next_coordinate` relative to `pos1`. -/
theorem next_coordinate_sub (bond_L : ℝ) (pos1 pos2 : Vec3) (theta : ℝ)
    (r : Vec3) :
    next_coordinate bond_L pos1 pos2 theta r - pos1 =
      bond_L • ((Real.cos theta) • unitVec (pos2 - pos1) +
        (Real.sin theta) • unitVec (perpComponent r (unitVec (pos2 - pos1)))) := by
  unfold next_coordinate
  exact Vec3.add_sub_cancel_left' _ _

/-- Squared norm of the sampler's offset: with a non-degenerate bond vector
and a non-degenerate random draw, it is exactly `bond_L ^ 2`. -/
theorem next_coordinate_distSq (bond_L : ℝ) (pos1 pos2 : Vec3) (theta : ℝ)
    (r : Vec3) (h1 : pos2 - pos1 ≠ 0)
    (h2 : perpComponent r (unitVec (pos2 - pos1)) ≠ 0) :
    Vec3.distSq (next_coordinate bond_L pos1 pos2 theta r) pos1 = bond_L ^ 2 := by
  have hu : Vec3.normSq (unitVec (pos2 - pos1)) = 1 := unitVec_normSq h1
  have hw : Vec3.normSq (unitVec (perpComponent r (unitVec (pos2 - pos1)))) = 1 :=
    unitVec_normSq h2
  have hperp : Vec3.dot (perpComponent r (unitVec (pos2 - pos1)))
      (unitVec (pos2 - pos1)) = 0 := perpComponent_dot hu
  have huw : Vec3.dot (unitVec (pos2 - pos1))
      (unitVec (perpComponent r (unitVec (pos2 - pos1)))) = 0 := by
    rw [Vec3.dot_comm, unitVec_dot_left, hperp, zero_div]
  rw [Vec3.distSq, next_coordinate_sub, Vec3.normSq_smul, Vec3.normSq_add',
    Vec3.normSq_smul, Vec3.normSq_smul, Vec3.dot_smul_left, Vec3.dot_smul_right,
    hu, hw, huw]
  have := Real.cos_sq_add_sin_sq theta
  nlinarith [this]

/-- Euclidean distance form of `next_coordinate_distSq`. -/
theorem next_coordinate_dist (bond_L : ℝ) (pos1 pos2 : Vec3) (theta : ℝ)
    (r : Vec3) (h1 : pos2 - pos1 ≠ 0)
    (h2 : perpComponent r (unitVec (pos2 - pos1)) ≠ 0) :
    Vec3.dist (next_coordinate bond_L pos1 pos2 theta r) pos1 = |bond_L| := by
  rw [Vec3.dist, next_coordinate_distSq bond_L pos1 pos2 theta r h1 h2,
    Real.sqrt_sq_eq_abs]

/-- The first sampled step is always at distance `|bond_L|` from `pos1`. -/
theorem next_coordinate_first_dist (bond_L : ℝ) (pos1 : Vec3) (phi theta : ℝ) :
    Vec3.dist (next_coordinate_first bond_L pos1 phi theta) pos1 = |bond_L| := by
  have hsq : Vec3.distSq (next_coordinate_first bond_L pos1 phi theta) pos1 =
      bond_L ^ 2 := by
    unfold next_coordinate_first
    rw [Vec3.distSq, Vec3.add_sub_cancel_left', Vec3.normSq]
    have hphi := Real.sin_sq_add_cos_sq phi
    have htheta := Real.sin_sq_add_cos_sq theta
    dsimp only
    linear_combination (bond_L ^ 2 * Real.sin theta ^ 2) * hphi +
      bond_L ^ 2 * htheta
  rw [Vec3.dist, hsq, Real.sqrt_sq_eq_abs]

theorem Vec3.dot_add_left (a b c : Vec3) :
    Vec3.dot (a + b) c = Vec3.dot a c + Vec3.dot b c := by
  simp only [Vec3.dot, Vec3.add_def]
  ring

theorem Vec3.zero_x : (0 : Vec3).x = 0 := rfl

theorem Vec3.zero_y : (0 : Vec3).y = 0 := rfl

theorem Vec3.zero_z : (0 : Vec3).z = 0 := rfl

theorem unitVec_neg_smul (v : Vec3) :
    unitVec ((-1 : ℝ) • v) = (-1 : ℝ) • unitVec v := by
  have hn : Vec3.norm ((-1 : ℝ) • v) = Vec3.norm v := by
    unfold Vec3.norm
    congr 1
    simp only [Vec3.normSq, Vec3.smul_def]
    ring
  unfold unitVec
  rw [hn, Vec3.ext_iff']
  simp only [Vec3.vdiv, Vec3.smul_def]
  refine ⟨by ring, by ring, by ring⟩

theorem dot_unitVec_sub_swap (X a b : Vec3) :
    Vec3.dot X (unitVec (a - b)) = - Vec3.dot X (unitVec (b - a)) := by
  have hsub : a - b = (-1 : ℝ) • (b - a) := by
    rw [Vec3.ext_iff']
    simp only [Vec3.sub_def, Vec3.smul_def]
    refine ⟨by ring, by ring, by ring⟩
  rw [hsub, unitVec_neg_smul, Vec3.dot_smul_right]
  ring

/-! ## Claim C2 -/

/-- C2 counterexample: at `bond_L = 1`, `pos1 = (1,0,0)`, `pos2 = (0,0,0)`,
`θ = 0` (permitted by `min_angle = max_angle = 0`) and random draw
`r = (0,1,0)`, the source sampler returns `(0,0,0)` — it walks along
`normalize(pos2 - pos1)` — while the spec's formula with
`v1 = normalize(pos1 - pos2)` gives `(2,0,0)`. -/
theorem next_coordinate_v1_counterexample :
    next_coordinate 1 ⟨1,0,0⟩ ⟨0,0,0⟩ 0 ⟨0,1,0⟩ = ⟨0,0,0⟩ ∧
    next_coordinate_spec 1 ⟨1,0,0⟩ ⟨0,0,0⟩ 0 ⟨0,1,0⟩ = ⟨2,0,0⟩ ∧
    next_coordinate 1 ⟨1,0,0⟩ ⟨0,0,0⟩ 0 ⟨0,1,0⟩ ≠
      next_coordinate_spec 1 ⟨1,0,0⟩ ⟨0,0,0⟩ 0 ⟨0,1,0⟩ := by
  have e1 : next_coordinate 1 ⟨1,0,0⟩ ⟨0,0,0⟩ 0 ⟨0,1,0⟩ = ⟨0,0,0⟩ := by
    unfold next_coordinate unitVec perpComponent
    rw [Vec3.ext_iff']
    norm_num [Vec3.vdiv, Vec3.norm, Vec3.normSq, Vec3.dot, Vec3.smul_def,
      Vec3.add_def, Vec3.sub_def, Real.cos_zero, Real.sin_zero, Real.sqrt_one]
  have e2 : next_coordinate_spec 1 ⟨1,0,0⟩ ⟨0,0,0⟩ 0 ⟨0,1,0⟩ = ⟨2,0,0⟩ := by
    unfold next_coordinate_spec unitVec perpComponent
    rw [Vec3.ext_iff']
    norm_num [Vec3.vdiv, Vec3.norm, Vec3.normSq, Vec3.dot, Vec3.smul_def,
      Vec3.add_def, Vec3.sub_def, Real.cos_zero, Real.sin_zero, Real.sqrt_one]
  refine ⟨e1, e2, ?_⟩
  rw [e1, e2]
  intro h
  have hx := (Vec3.ext_iff'.mp h).1
  norm_num at hx

/-- C2 (amended): the candidate of `_next_coordinate` equals
`pos1 + bond_L · (cos θ · v1 + sin θ · r_perp)` where `v1` is
`normalize(pos2 - pos1)` — the reverse of the spec's `normalize(pos1 - pos2)`
— so (for non-degenerate inputs) its offset from `pos1` has inner product
`bond_L · cos θ` with `normalize(pos2 - pos1)`, length `|bond_L|`, and inner
product `bond_L · cos (π - θ)` with `normalize(pos1 - pos2)`: the direction
lies at angle `θ` from the backward bond vector, i.e. at angle `π - θ` from
`normalize(pos1 - pos2)`. -/
theorem next_coordinate_direction (bond_L : ℝ) (pos1 pos2 : Vec3) (theta : ℝ)
    (r : Vec3) (h1 : pos2 - pos1 ≠ 0)
    (h2 : perpComponent r (unitVec (pos2 - pos1)) ≠ 0) :
    next_coordinate bond_L pos1 pos2 theta r - pos1 =
      bond_L • ((Real.cos theta) • unitVec (pos2 - pos1) +
        (Real.sin theta) • unitVec (perpComponent r (unitVec (pos2 - pos1)))) ∧
    Vec3.dot (next_coordinate bond_L pos1 pos2 theta r - pos1)
      (unitVec (pos2 - pos1)) = bond_L * Real.cos theta ∧
    Vec3.dist (next_coordinate bond_L pos1 pos2 theta r) pos1 = |bond_L| ∧
    Vec3.dot (next_coordinate bond_L pos1 pos2 theta r - pos1)
      (unitVec (pos1 - pos2)) = bond_L * Real.cos (Real.pi - theta) := by
  have hu : Vec3.normSq (unitVec (pos2 - pos1)) = 1 := unitVec_normSq h1
  have hperp : Vec3.dot (perpComponent r (unitVec (pos2 - pos1)))
      (unitVec (pos2 - pos1)) = 0 := perpComponent_dot hu
  have hwu : Vec3.dot
      (unitVec (perpComponent r (unitVec (pos2 - pos1))))
      (unitVec (pos2 - pos1)) = 0 := by
    rw [unitVec_dot_left, hperp, zero_div]
  have hdot : Vec3.dot (next_coordinate bond_L pos1 pos2 theta r - pos1)
      (unitVec (pos2 - pos1)) = bond_L * Real.cos theta := by
    rw [next_coordinate_sub, Vec3.dot_smul_left, Vec3.dot_add_left,
      Vec3.dot_smul_left, Vec3.dot_smul_left, hwu, ← Vec3.normSq_eq_dot, hu]
    ring
  refine ⟨next_coordinate_sub bond_L pos1 pos2 theta r, hdot,
    next_coordinate_dist bond_L pos1 pos2 theta r h1 h2, ?_⟩
  rw [dot_unitVec_sub_swap, hdot, Real.cos_pi_sub]
  ring

/-- Witness for C2's amended theorem at the counterexample's input. -/
theorem next_coordinate_direction_witness :
    ((⟨0,0,0⟩ : Vec3) - ⟨1,0,0⟩ ≠ 0) ∧
    (perpComponent ⟨0,1,0⟩ (unitVec ((⟨0,0,0⟩ : Vec3) - ⟨1,0,0⟩)) ≠ 0) ∧
    Vec3.dist (next_coordinate 1 ⟨1,0,0⟩ ⟨0,0,0⟩ 0 ⟨0,1,0⟩) ⟨1,0,0⟩ =
      |(1 : ℝ)| := by
  have h1 : (⟨0,0,0⟩ : Vec3) - ⟨1,0,0⟩ ≠ 0 := by
    rw [Ne, Vec3.ext_iff']
    norm_num [Vec3.sub_def, Vec3.zero_x, Vec3.zero_y, Vec3.zero_z]
  have h2 : perpComponent ⟨0,1,0⟩ (unitVec ((⟨0,0,0⟩ : Vec3) - ⟨1,0,0⟩)) ≠ 0 := by
    unfold perpComponent unitVec
    rw [Ne, Vec3.ext_iff']
    norm_num [Vec3.vdiv, Vec3.norm, Vec3.normSq, Vec3.dot, Vec3.smul_def,
      Vec3.sub_def, Vec3.zero_x, Vec3.zero_y, Vec3.zero_z, Real.sqrt_one]
  exact ⟨h1, h2,
    (next_coordinate_direction 1 ⟨1,0,0⟩ ⟨0,0,0⟩ 0 ⟨0,1,0⟩ h1 h2).2.2.1⟩

/-! ## Claim C6 -/

theorem Vec3.dist_self (a : Vec3) : Vec3.dist a a = 0 := by
  have h0 : Vec3.distSq a a = 0 := by
    simp [Vec3.distSq, Vec3.normSq, Vec3.sub_def]
  rw [Vec3.dist, h0, Real.sqrt_zero]

theorem List.getD_set_ne' {α : Type} (l : List α) (i j : ℕ) (a d : α)
    (h : i ≠ j) : (l.set i a).getD j d = l.getD j d := by
  simp [List.getD_eq_getElem?_getD, List.getElem?_set_ne h]

theorem List.getD_set_self' {α : Type} (l : List α) (i : ℕ) (a d : α)
    (h : i < l.length) : (l.set i a).getD i d = a := by
  simp [List.getD_eq_getElem?_getD, List.getElem?_set_self h]

/-- Case analysis on one iteration of the loop body. -/
theorem walkStep_cases {V : Type} [Zero V] (next : WalkState V → V)
    (check : List V → ℕ → Bool) (s : WalkState V) :
    (check (s.coordinates.set (s.count + 1) (next s)) s.count = false ∧
      walkStep next check s =
        ⟨(s.coordinates.set (s.count + 1) (next s)).set (s.count + 1) (0 : V),
          s.bonds, s.count, s.attempts + 1⟩) ∨
    (check (s.coordinates.set (s.count + 1) (next s)) s.count = true ∧
      walkStep next check s =
        ⟨s.coordinates.set (s.count + 1) (next s),
          s.bonds ++ [(s.count, s.count + 1)], s.count + 1,
          s.attempts + 1⟩) := by
  cases hchk : check (s.coordinates.set (s.count + 1) (next s)) s.count
  · exact Or.inl ⟨rfl, walkStep_reject_eq next check s hchk⟩
  · exact Or.inr ⟨rfl, walkStep_accept_eq next check s hchk⟩

/-- The random draw consumed at state `s` is non-degenerate: the vector
`r_perp = r - np.dot(r, v1_norm) * v1_norm` computed by `_next_coordinate`
from it is non-zero (when it is zero the division by
`np.linalg.norm(r_perp) = 0` makes the Python code produce NaNs). -/
noncomputable def drawNonDeg (rs : ℕ → Vec3) (s : WalkState Vec3) : Prop :=
  perpComponent (rs s.attempts)
    (unitVec (s.coordinates.getD (s.count - 1) 0 -
      s.coordinates.getD s.count 0)) ≠ 0

/-- Every draw consumed along (the first `fuel` iterations of) a run of the
growth loop is non-degenerate in the sense of `drawNonDeg`. -/
noncomputable def RunNonDeg (N : ℕ) (next : WalkState Vec3 → Vec3)
    (check : List Vec3 → ℕ → Bool) (rs : ℕ → Vec3) :
    ℕ → WalkState Vec3 → Prop
  | 0, _ => True
  | fuel + 1, s =>
    if s.count < N - 1 then
      drawNonDeg rs s ∧ RunNonDeg N next check rs fuel (walkStep next check s)
    else True

/-- C6: along every successful run of the growth loop driven by the real
sampler `_next_coordinate` (with arbitrary accept/reject check, covering
both `_check_system` and `_check_path`), every pair of consecutive
coordinates of the returned chain is at Euclidean distance exactly
`bond_L`, provided every consumed random vector is non-parallel to the
current bond direction. -/
theorem generateLoop_bond_lengths (N maxAttempts fuel : ℕ) (hN : 2 ≤ N)
    (bond_L : ℝ) (hb : 0 < bond_L) (thetas : ℕ → ℝ) (rs : ℕ → Vec3)
    (phi0 theta0 : ℝ) (check : List Vec3 → ℕ → Bool) (sf : WalkState Vec3)
    (hnd : RunNonDeg N (walkNext bond_L thetas rs) check rs fuel
      (initWalk N (next_coordinate_first bond_L 0 phi0 theta0)))
    (hrun : generateLoop N maxAttempts (walkNext bond_L thetas rs) check fuel
      (initWalk N (next_coordinate_first bond_L 0 phi0 theta0)) =
        .success sf) :
    ∀ i, i + 1 ≤ sf.count →
      Vec3.dist (sf.coordinates.getD (i + 1) 0) (sf.coordinates.getD i 0) =
        bond_L := by
  suffices haux : ∀ (fuel : ℕ) (s : WalkState Vec3),
      1 ≤ s.count → s.coordinates.length = N →
      (∀ i, i + 1 ≤ s.count →
        Vec3.dist (s.coordinates.getD (i + 1) 0) (s.coordinates.getD i 0) =
          bond_L) →
      RunNonDeg N (walkNext bond_L thetas rs) check rs fuel s →
      generateLoop N maxAttempts (walkNext bond_L thetas rs) check fuel s =
        .success sf →
      ∀ i, i + 1 ≤ sf.count →
        Vec3.dist (sf.coordinates.getD (i + 1) 0) (sf.coordinates.getD i 0) =
          bond_L by
    refine haux fuel _ (le_refl 1) ?_ ?_ hnd hrun
    · simp [initWalk]
    · intro i hi
      have hcnt : (initWalk N (next_coordinate_first bond_L 0 phi0
        theta0)).count = 1 := rfl
      have hi0 : i = 0 := by omega
      subst hi0
      have hg1 : ((List.replicate N (0 : Vec3)).set 1
          (next_coordinate_first bond_L 0 phi0 theta0)).getD 1 0 =
          next_coordinate_first bond_L 0 phi0 theta0 := by
        apply List.getD_set_self'
        simp only [List.length_replicate]
        omega
      have hg0 : ((List.replicate N (0 : Vec3)).set 1
          (next_coordinate_first bond_L 0 phi0 theta0)).getD 0 0 = 0 := by
        rw [List.getD_set_ne' _ _ _ _ _ (by omega)]
        simp [List.getD_eq_getElem?_getD, List.getElem?_replicate_of_lt
          (by omega : 0 < N)]
      show Vec3.dist _ _ = bond_L
      rw [show (initWalk N (next_coordinate_first bond_L 0 phi0
          theta0)).coordinates = (List.replicate N (0 : Vec3)).set 1
          (next_coordinate_first bond_L 0 phi0 theta0) from rfl, hg1, hg0,
        next_coordinate_first_dist, abs_of_pos hb]
  intro fuel
  induction fuel with
  | zero =>
    intro s _ _ _ _ hrun0
    rw [generateLoop] at hrun0
    exact WalkResult.noConfusion hrun0
  | succ fuel ih =>
    intro s h1 hlen hpairs hnd hrun
    rw [generateLoop] at hrun
    rw [RunNonDeg] at hnd
    by_cases hc : s.count < N - 1
    · rw [if_pos hc] at hrun
      rw [if_pos hc] at hnd
      obtain ⟨hndd, hndrest⟩ := hnd
      by_cases hx : (walkStep (walkNext bond_L thetas rs) check s).attempts =
          maxAttempts ∧ (walkStep (walkNext bond_L thetas rs) check s).count < N
      · rw [if_pos hx] at hrun
        exact WalkResult.noConfusion hrun
      · rw [if_neg hx] at hrun
        refine ih _ ?_ ?_ ?_ hndrest hrun
        · rcases walkStep_cases (walkNext bond_L thetas rs) check s with h | h <;>
            rw [h.2] <;> dsimp only <;> omega
        · rw [walkStep_length]; exact hlen
        · rcases walkStep_cases (walkNext bond_L thetas rs) check s with h | h
          · -- rejection: count unchanged, indices ≤ count untouched
            rw [h.2]
            dsimp only
            intro i hi
            rw [List.set_set, List.getD_set_ne' _ _ _ _ _ (by omega),
              List.getD_set_ne' _ _ _ _ _ (by omega)]
            exact hpairs i hi
          · -- acceptance: one new pair (count, count + 1)
            rw [h.2]
            dsimp only
            intro i hi
            rcases Nat.lt_or_ge i s.count with hilt | hige
            · rw [List.getD_set_ne' _ _ _ _ _ (by omega),
                List.getD_set_ne' _ _ _ _ _ (by omega)]
              exact hpairs i (by omega)
            · have hieq : i = s.count := by omega
              subst hieq
              rw [List.getD_set_self' _ _ _ _ (by omega),
                List.getD_set_ne' _ _ _ _ _ (by omega)]
              have hprev : Vec3.dist (s.coordinates.getD s.count 0)
                  (s.coordinates.getD (s.count - 1) 0) = bond_L := by
                have := hpairs (s.count - 1) (by omega)
                have hsc : s.count - 1 + 1 = s.count := by omega
                rwa [hsc] at this
              have hne : s.coordinates.getD (s.count - 1) 0 -
                  s.coordinates.getD s.count 0 ≠ 0 := by
                intro h0
                have heq := Vec3.sub_eq_zero_iff.mp h0
                rw [← heq, Vec3.dist_self] at hprev
                exact absurd hprev.symm (ne_of_gt hb)
              rw [walkNext]
              rw [next_coordinate_dist _ _ _ _ _ hne hndd, abs_of_pos hb]
    · rw [if_neg hc] at hrun
      rw [if_neg hc] at hnd
      injection hrun with hsf
      subst hsf
      exact hpairs

/-- Witness for C6: a concrete (trivial, zero-iteration) successful run with
`N = 2` and `bond_L = 1`; the single bond of the returned chain has length
exactly 1. -/
theorem generateLoop_bond_lengths_witness :
    (2 ≤ 2) ∧ (0 < (1 : ℝ)) ∧
    RunNonDeg 2 (walkNext 1 (fun _ => 0) (fun _ => 0)) (fun _ _ => true)
      (fun _ => 0) 1 (initWalk 2 (next_coordinate_first 1 0 0 0)) ∧
    (generateLoop 2 5 (walkNext 1 (fun _ => 0) (fun _ => 0)) (fun _ _ => true)
      1 (initWalk 2 (next_coordinate_first 1 0 0 0)) =
      .success (initWalk 2 (next_coordinate_first 1 0 0 0))) ∧
    (∀ i, i + 1 ≤ (initWalk 2 (next_coordinate_first 1 0 0 0)).count →
      Vec3.dist
        ((initWalk 2 (next_coordinate_first 1 0 0 0)).coordinates.getD (i + 1) 0)
        ((initWalk 2 (next_coordinate_first 1 0 0 0)).coordinates.getD i 0) =
        1) := by
  have hnd : RunNonDeg 2 (walkNext 1 (fun _ => 0) (fun _ => 0))
      (fun _ _ => true) (fun _ => 0) 1
      (initWalk 2 (next_coordinate_first 1 0 0 0)) := by
    rw [RunNonDeg]
    simp [initWalk]
  have hrun : generateLoop 2 5 (walkNext 1 (fun _ => 0) (fun _ => 0))
      (fun _ _ => true) 1 (initWalk 2 (next_coordinate_first 1 0 0 0)) =
      .success (initWalk 2 (next_coordinate_first 1 0 0 0)) := rfl
  exact ⟨le_refl 2, by norm_num, hnd, hrun,
    generateLoop_bond_lengths 2 5 1 (le_refl 2) 1 (by norm_num)
      (fun _ => 0) (fun _ => 0) 0 0 (fun _ _ => true) _ hnd hrun⟩

/-! ## Claim C3 -/

theorem not_sqLt_imp_le {dsq r : ℝ} (h0 : 0 ≤ dsq) (h : ¬ sqLt dsq r) :
    r ≤ Real.sqrt dsq := by
  by_cases hr : 0 < r
  · have hge : r ^ 2 ≤ dsq := by
      by_contra hlt
      exact h ⟨hr, lt_of_not_le hlt⟩
    have := Real.sqrt_le_sqrt hge
    rwa [Real.sqrt_sq hr.le] at this
  · exact le_trans (not_lt.mp hr) (Real.sqrt_nonneg _)

theorem getD_mem_take {α : Type} (l : List α) (k i : ℕ) (d : α) (hik : i < k)
    (hil : i < l.length) : l.getD i d ∈ l.take k := by
  have hlt : i < (l.take k).length := by
    rw [List.length_take]; omega
  have h1 : l.getD i d = (l.take k).getD i d := by
    rw [List.getD_eq_getElem?_getD, List.getD_eq_getElem?_getD,
      List.getElem?_take_of_lt hik]
  rw [h1, List.getD_eq_getElem?_getD, List.getElem?_eq_getElem hlt,
    Option.getD_some]
  exact List.getElem_mem hlt

/-- Euclidean distance under the minimum-image convention. -/
noncomputable def minImageDist (L : ℝ) (a b : Vec3) : ℝ :=
  Real.sqrt (minImageDistSq L a b)

theorem minImageDistSq_nonneg (L : ℝ) (a b : Vec3) :
    0 ≤ minImageDistSq L a b := by
  unfold minImageDistSq
  positivity

/-- Inductive invariant for the `_check_system`-driven loop: every
non-bonded pair of the accepted prefix keeps squared distance at least
`radius ^ 2`, and this survives every iteration. -/
theorem self_avoid_system_aux (N maxAttempts : ℕ) (radius : ℝ)
    (next : WalkState Vec3 → Vec3) (sf : WalkState Vec3) :
    ∀ (fuel : ℕ) (s : WalkState Vec3),
      s.coordinates.length = N →
      (∀ i j, j ≤ s.count → i + 1 < j →
        ¬ sqLt (Vec3.distSq (s.coordinates.getD i 0)
          (s.coordinates.getD j 0)) radius) →
      generateLoop N maxAttempts next (checkSystemLoop radius) fuel s =
        .success sf →
      ∀ i j, j ≤ sf.count → i + 1 < j →
        ¬ sqLt (Vec3.distSq (sf.coordinates.getD i 0)
          (sf.coordinates.getD j 0)) radius := by
  intro fuel
  induction fuel with
  | zero =>
    intro s _ _ h
    rw [generateLoop] at h
    exact WalkResult.noConfusion h
  | succ fuel ih =>
    intro s hlen hinv hrun
    rw [generateLoop] at hrun
    by_cases hc : s.count < N - 1
    · rw [if_pos hc] at hrun
      by_cases hx : (walkStep next (checkSystemLoop radius) s).attempts =
          maxAttempts ∧ (walkStep next (checkSystemLoop radius) s).count < N
      · rw [if_pos hx] at hrun
        exact WalkResult.noConfusion hrun
      · rw [if_neg hx] at hrun
        refine ih _ ?_ ?_ hrun
        · rw [walkStep_length]; exact hlen
        · rcases walkStep_cases next (checkSystemLoop radius) s with h | h
          · rw [h.2]
            dsimp only
            intro i j hj hij
            rw [List.set_set, List.getD_set_ne' _ _ _ _ _ (by omega),
              List.getD_set_ne' _ _ _ _ _ (by omega)]
            exact hinv i j hj hij
          · rw [h.2]
            dsimp only
            intro i j hj hij
            rcases Nat.lt_or_ge j (s.count + 1) with hjlt | hjge
            · rw [List.getD_set_ne' _ _ _ _ _ (by omega),
                List.getD_set_ne' _ _ _ _ _ (by omega)]
              exact hinv i j (by omega) hij
            · have hjeq : j = s.count + 1 := by omega
              subst hjeq
              have hch := h.1
              rw [checkSystemLoop, check_system] at hch
              have hprop := of_decide_eq_true hch
              have hmem : (s.coordinates.set (s.count + 1) (next s)).getD i 0 ∈
                  (s.coordinates.set (s.count + 1) (next s)).take
                    (s.count + 1 - 1) := by
                apply getD_mem_take
                · omega
                · rw [List.length_set, hlen]; omega
              exact hprop _ hmem
    · rw [if_neg hc] at hrun
      injection hrun with hsf
      subst hsf
      exact hinv

/-- The `_check_path`-driven loop validates, at its final (accepting)
iteration, all pairs of the whole chain in the final box; a successful run
therefore ends with every distinct pair at minimum-image distance at least
`radius - tolerance`. -/
theorem self_avoid_path_aux (N maxAttempts : ℕ) (radius tol : ℝ)
    (next : WalkState Vec3 → Vec3) (sf : WalkState Vec3) :
    ∀ (fuel : ℕ) (s : WalkState Vec3),
      s.coordinates.length = N → s.count < N - 1 →
      generateLoop N maxAttempts next (check_path radius tol) fuel s =
        .success sf →
      (sf.coordinates.length = N ∧ sf.count = N - 1 ∧
       ∀ i j, i < N → j < N → i ≠ j →
        ¬ sqLt (minImageDistSq (boxSide (sf.count - 1) radius)
            (sf.coordinates.getD i 0) (sf.coordinates.getD j 0))
          (radius - tol)) := by
  intro fuel
  induction fuel with
  | zero =>
    intro s _ _ h
    rw [generateLoop] at h
    exact WalkResult.noConfusion h
  | succ fuel ih =>
    intro s hlen hc hrun
    rw [generateLoop, if_pos hc] at hrun
    by_cases hx : (walkStep next (check_path radius tol) s).attempts =
        maxAttempts ∧ (walkStep next (check_path radius tol) s).count < N
    · rw [if_pos hx] at hrun
      exact WalkResult.noConfusion hrun
    · rw [if_neg hx] at hrun
      by_cases hc' : (walkStep next (check_path radius tol) s).count < N - 1
      · exact ih _ (by rw [walkStep_length]; exact hlen) hc' hrun
      · cases fuel with
        | zero =>
          rw [generateLoop] at hrun
          exact WalkResult.noConfusion hrun
        | succ f =>
          rw [generateLoop, if_neg hc'] at hrun
          injection hrun with hsf
          rcases walkStep_cases next (check_path radius tol) s with h | h
          · exfalso
            have hcount : (walkStep next (check_path radius tol) s).count =
                s.count := by rw [h.2]
            omega
          · have hcount : (walkStep next (check_path radius tol) s).count =
                s.count + 1 := by rw [h.2]
            have hsfc : sf.coordinates =
                s.coordinates.set (s.count + 1) (next s) := by
              rw [← hsf, h.2]
            have hsfcount : sf.count = s.count + 1 := by rw [← hsf, hcount]
            have hlen1 : (s.coordinates.set (s.count + 1) (next s)).length =
                N := by rw [List.length_set]; exact hlen
            refine ⟨by rw [hsfc]; exact hlen1, by omega, ?_⟩
            intro i j hi hj hij
            have hch := h.1
            rw [check_path] at hch
            have hprop := of_decide_eq_true hch
            have htake : (s.coordinates.set (s.count + 1) (next s)).take
                (s.count + 2) = s.coordinates.set (s.count + 1) (next s) :=
              List.take_of_length_le (by rw [hlen1]; omega)
            rw [htake] at hprop
            have hbox : sf.count - 1 = s.count := by omega
            rw [hsfc, hbox]
            exact hprop i (by rw [hlen1]; exact hi) j
              (by rw [hlen1]; exact hj) hij

/-- C3: self-avoidance of every successfully returned chain, for both
validation variants.  Under `_check_system` (plain Euclidean distances,
`random_walk`) every non-bonded pair `|i - j| > 1` of the final chain is at
distance at least `radius`; under `_check_path`
(`HardSphereRandomWalk`, periodic minimum-image distances in the final
validation box) every distinct pair — in particular every non-bonded one —
is at periodic distance at least `radius - tolerance`. -/
theorem generateLoop_self_avoidance (N maxAttempts fuel : ℕ)
    (radius tol : ℝ) (next : WalkState Vec3 → Vec3) (first : Vec3)
    (sf sg : WalkState Vec3) :
    (generateLoop N maxAttempts next (checkSystemLoop radius) fuel
        (initWalk N first) = .success sf →
      ∀ i j, j ≤ sf.count → i + 1 < j →
        radius ≤ Vec3.dist (sf.coordinates.getD i 0)
          (sf.coordinates.getD j 0)) ∧
    (3 ≤ N →
      generateLoop N maxAttempts next (check_path radius tol) fuel
        (initWalk N first) = .success sg →
      ∀ i j, i < sg.coordinates.length → j < sg.coordinates.length → i ≠ j →
        radius - tol ≤ minImageDist (boxSide (sg.count - 1) radius)
          (sg.coordinates.getD i 0) (sg.coordinates.getD j 0)) := by
  constructor
  · intro hrun i j hj hij
    have hcnt : (initWalk N first).count = 1 := rfl
    have hnot := self_avoid_system_aux N maxAttempts radius next sf fuel
      (initWalk N first) (by simp [initWalk])
      (fun i j hj hij => by exfalso; omega) hrun i j hj hij
    exact not_sqLt_imp_le (Vec3.normSq_nonneg _) hnot
  · intro hN hrun i j hi hj hij
    have hcnt : (initWalk N first).count = 1 := rfl
    obtain ⟨hlenf, hcntf, hprop⟩ := self_avoid_path_aux N maxAttempts radius
      tol next sg fuel (initWalk N first) (by simp [initWalk]) (by omega) hrun
    exact not_sqLt_imp_le (minImageDistSq_nonneg _ _ _)
      (hprop i j (hlenf ▸ hi) (hlenf ▸ hj) hij)

/-- `_check_path` accepts everything when `radius - tolerance ≤ 0`: no pair
can be strictly within a non-positive cutoff. -/
theorem check_path_nonpos_true (radius tol : ℝ) (coords : List Vec3)
    (count : ℕ) (h : radius - tol ≤ 0) :
    check_path radius tol coords count = true := by
  rw [check_path]
  apply decide_eq_true
  intro i hi j hj hij
  rintro ⟨hr, _⟩
  linarith

/-- Witness for C3: a zero-iteration `_check_system` run with `N = 2`, and
a one-acceptance `_check_path` run with `N = 3`, `radius = tol = 0`. -/
theorem generateLoop_self_avoidance_witness :
    (generateLoop 2 7 (fun _ => (⟨5,5,5⟩ : Vec3)) (checkSystemLoop 1) 1
        (initWalk 2 (⟨1,0,0⟩ : Vec3)) = .success (initWalk 2 (⟨1,0,0⟩ : Vec3))) ∧
    (∀ i j, j ≤ (initWalk 2 (⟨1,0,0⟩ : Vec3)).count → i + 1 < j →
      (1 : ℝ) ≤ Vec3.dist ((initWalk 2 (⟨1,0,0⟩ : Vec3)).coordinates.getD i 0)
        ((initWalk 2 (⟨1,0,0⟩ : Vec3)).coordinates.getD j 0)) ∧
    (3 ≤ 3) ∧
    (generateLoop 3 9 (fun _ => (⟨2,0,0⟩ : Vec3)) (check_path 0 0) 2
        (initWalk 3 (⟨1,0,0⟩ : Vec3)) =
      .success ⟨((List.replicate 3 (0 : Vec3)).set 1 ⟨1,0,0⟩).set 2 ⟨2,0,0⟩,
        [(0, 1), (1, 2)], 2, 1⟩) ∧
    (∀ i j,
      i < (WalkState.mk (V := Vec3)
        (((List.replicate 3 (0 : Vec3)).set 1 ⟨1,0,0⟩).set 2 ⟨2,0,0⟩)
        [(0, 1), (1, 2)] 2 1).coordinates.length →
      j < (WalkState.mk (V := Vec3)
        (((List.replicate 3 (0 : Vec3)).set 1 ⟨1,0,0⟩).set 2 ⟨2,0,0⟩)
        [(0, 1), (1, 2)] 2 1).coordinates.length →
      i ≠ j →
      (0 : ℝ) - 0 ≤ minImageDist (boxSide ((WalkState.mk (V := Vec3)
          (((List.replicate 3 (0 : Vec3)).set 1 ⟨1,0,0⟩).set 2 ⟨2,0,0⟩)
          [(0, 1), (1, 2)] 2 1).count - 1) 0)
        ((WalkState.mk (V := Vec3)
          (((List.replicate 3 (0 : Vec3)).set 1 ⟨1,0,0⟩).set 2 ⟨2,0,0⟩)
          [(0, 1), (1, 2)] 2 1).coordinates.getD i 0)
        ((WalkState.mk (V := Vec3)
          (((List.replicate 3 (0 : Vec3)).set 1 ⟨1,0,0⟩).set 2 ⟨2,0,0⟩)
          [(0, 1), (1, 2)] 2 1).coordinates.getD j 0)) := by
  have hrunA : generateLoop 2 7 (fun _ => (⟨5,5,5⟩ : Vec3))
      (checkSystemLoop 1) 1 (initWalk 2 (⟨1,0,0⟩ : Vec3)) =
      .success (initWalk 2 (⟨1,0,0⟩ : Vec3)) := rfl
  have hchk : check_path 0 0
      ((initWalk 3 (⟨1,0,0⟩ : Vec3)).coordinates.set
        ((initWalk 3 (⟨1,0,0⟩ : Vec3)).count + 1)
        ((fun _ => (⟨2,0,0⟩ : Vec3)) (initWalk 3 (⟨1,0,0⟩ : Vec3))))
      (initWalk 3 (⟨1,0,0⟩ : Vec3)).count = true :=
    check_path_nonpos_true 0 0 _ _ (by norm_num)
  have hstep := walkStep_accept_eq (fun _ => (⟨2,0,0⟩ : Vec3))
    (check_path 0 0) (initWalk 3 (⟨1,0,0⟩ : Vec3)) hchk
  have hrunB : generateLoop 3 9 (fun _ => (⟨2,0,0⟩ : Vec3)) (check_path 0 0) 2
      (initWalk 3 (⟨1,0,0⟩ : Vec3)) =
      .success ⟨((List.replicate 3 (0 : Vec3)).set 1 ⟨1,0,0⟩).set 2 ⟨2,0,0⟩,
        [(0, 1), (1, 2)], 2, 1⟩ := by
    rw [generateLoop]
    rw [if_pos (show (initWalk 3 (⟨1,0,0⟩ : Vec3)).count < 3 - 1 by decide)]
    rw [hstep]
    rw [if_neg (by decide)]
    rw [generateLoop]
    rw [if_neg (by decide)]
    rfl
  exact ⟨hrunA,
    (generateLoop_self_avoidance 2 7 1 1 0 (fun _ => (⟨5,5,5⟩ : Vec3))
      (⟨1,0,0⟩ : Vec3) (initWalk 2 (⟨1,0,0⟩ : Vec3)) (initWalk 2 (⟨1,0,0⟩ : Vec3))).1 hrunA,
    le_refl 3, hrunB,
    (generateLoop_self_avoidance 3 9 2 0 0 (fun _ => (⟨2,0,0⟩ : Vec3))
      (⟨1,0,0⟩ : Vec3) (initWalk 3 (⟨1,0,0⟩ : Vec3))
      (⟨((List.replicate 3 (0 : Vec3)).set 1 ⟨1,0,0⟩).set 2 ⟨2,0,0⟩,
        [(0, 1), (1, 2)], 2, 1⟩ : WalkState Vec3)).2 (le_refl 3) hrunB⟩

/-! ## Claim C5 -/

/-- When a separation component is less than half the box, the minimum-image
convention leaves it unchanged. -/
theorem minImage_eq_self {L d : ℝ} (hL : 0 < L) (hd : |d| < L / 2) :
    minImage L d = d := by
  have hmem : d / L ∈ Set.Ico (-(1 / 2) : ℝ) (1 / 2) := by
    rw [abs_lt] at hd
    rw [Set.mem_Ico]
    exact ⟨(le_div_iff hL).mpr (by linarith), (div_lt_iff hL).mpr (by linarith)⟩
  have h0 : round (d / L) = 0 := round_eq_zero_iff.mpr hmem
  rw [minImage, h0]
  simp

/-- Inside the box (componentwise), minimum-image distance is plain
Euclidean distance. -/
theorem minImageDistSq_eq (L : ℝ) (a b : Vec3) (hL : 0 < L)
    (hx : |(a - b).x| < L / 2) (hy : |(a - b).y| < L / 2)
    (hz : |(a - b).z| < L / 2) :
    minImageDistSq L a b = Vec3.distSq a b := by
  unfold minImageDistSq
  rw [minImage_eq_self hL hx, minImage_eq_self hL hy, minImage_eq_self hL hz,
    Vec3.distSq, Vec3.normSq]

/-- C5 counterexample: a trial configuration (`count = 1`,
`bond_length = 1/2`, `radius = 1`, `tolerance = 0`) in which the only pair
closer than `radius` is the bonded pair `(1, 2)` — both non-bonded pairs are
at distance at least `radius` — and yet `_check_path` rejects the
candidate: the bonded predecessor is not excluded from the overlap check. -/
theorem check_path_bonded_rejection_counterexample :
    Vec3.distSq (⟨1,0,0⟩ : Vec3) ⟨1,1/2,0⟩ = (1 / 2) ^ 2 ∧
    (¬ sqLt (Vec3.distSq (⟨0,0,0⟩ : Vec3) ⟨1,0,0⟩) 1) ∧
    (¬ sqLt (Vec3.distSq (⟨0,0,0⟩ : Vec3) ⟨1,1/2,0⟩) 1) ∧
    check_path 1 0 [⟨0,0,0⟩, ⟨1,0,0⟩, ⟨1,1/2,0⟩] 1 = false := by
  have hbox : boxSide 1 1 = 201 / 100 := by rw [boxSide]; norm_num
  refine ⟨?_, ?_, ?_, ?_⟩
  · norm_num [Vec3.distSq, Vec3.normSq, Vec3.sub_def]
  · rintro ⟨_, h⟩
    rw [show Vec3.distSq (⟨0,0,0⟩ : Vec3) ⟨1,0,0⟩ = 1 by
      norm_num [Vec3.distSq, Vec3.normSq, Vec3.sub_def]] at h
    norm_num at h
  · rintro ⟨_, h⟩
    rw [show Vec3.distSq (⟨0,0,0⟩ : Vec3) ⟨1,1/2,0⟩ = 5 / 4 by
      norm_num [Vec3.distSq, Vec3.normSq, Vec3.sub_def]] at h
    norm_num at h
  · rw [check_path]
    apply decide_eq_false
    intro hall
    have hpair := hall 1 (by norm_num) 2 (by norm_num) (by norm_num)
    apply hpair
    show sqLt (minImageDistSq (boxSide 1 1) ⟨1,0,0⟩ ⟨1,1/2,0⟩) (1 - 0)
    rw [minImageDistSq_eq _ _ _ (by rw [hbox]; norm_num)
      (by rw [hbox]; norm_num [Vec3.sub_def, abs_lt])
      (by rw [hbox]; norm_num [Vec3.sub_def, abs_lt])
      (by rw [hbox]; norm_num [Vec3.sub_def, abs_lt])]
    constructor
    · norm_num
    · rw [show Vec3.distSq (⟨1,0,0⟩ : Vec3) ⟨1,1/2,0⟩ = 1 / 4 by
        norm_num [Vec3.distSq, Vec3.normSq, Vec3.sub_def]]
      norm_num

/-- C5 (amended): in `random_walk` the overlap check does exclude the
bonded predecessor — `_check_system` with trial index `c + 1` is
independent of the coordinate stored at index `c` — but in
`HardSphereRandomWalk._check_path` there is no such exclusion: whenever the
bonded pair `(count, count + 1)` itself lies (in minimum-image distance)
strictly within `radius - tolerance`, the candidate is rejected. -/
theorem bonded_neighbor_exclusion (coords : List Vec3) (radius tol : ℝ)
    (c count : ℕ) (v : Vec3) :
    (check_system (coords.set c v) radius (c + 1) =
      check_system coords radius (c + 1)) ∧
    (count + 1 < (coords.take (count + 2)).length →
      sqLt (minImageDistSq (boxSide count radius)
        ((coords.take (count + 2)).getD count 0)
        ((coords.take (count + 2)).getD (count + 1) 0)) (radius - tol) →
      check_path radius tol coords count = false) := by
  constructor
  · have h1 : (coords.set c v).take (c + 1 - 1) = coords.take (c + 1 - 1) := by
      rw [Nat.add_sub_cancel, List.set_take]
      exact List.set_eq_of_length_le (by rw [List.length_take]; omega)
    have h2 : (coords.set c v).getD (c + 1) 0 = coords.getD (c + 1) 0 :=
      List.getD_set_ne' _ _ _ _ _ (by omega)
    rw [check_system, check_system, h1, h2]
  · intro hlt hsq
    rw [check_path]
    apply decide_eq_false
    intro hall
    exact hall count (by omega) (count + 1) hlt (by omega) hsq

/-- Witness for C5's amended theorem at concrete inputs (the counterexample
configuration for the `_check_path` part). -/
theorem bonded_neighbor_exclusion_witness :
    (check_system (([⟨0,0,0⟩, ⟨1,0,0⟩, ⟨9,9,9⟩] : List Vec3).set 1 ⟨7,7,7⟩)
        1 2 = check_system [⟨0,0,0⟩, ⟨1,0,0⟩, ⟨9,9,9⟩] 1 2) ∧
    (1 + 1 < (([⟨0,0,0⟩, ⟨1,0,0⟩, ⟨1,1/2,0⟩] : List Vec3).take 3).length) ∧
    sqLt (minImageDistSq (boxSide 1 1)
      ((([⟨0,0,0⟩, ⟨1,0,0⟩, ⟨1,1/2,0⟩] : List Vec3).take 3).getD 1 0)
      ((([⟨0,0,0⟩, ⟨1,0,0⟩, ⟨1,1/2,0⟩] : List Vec3).take 3).getD 2 0))
        (1 - 0) ∧
    check_path 1 0 [⟨0,0,0⟩, ⟨1,0,0⟩, ⟨1,1/2,0⟩] 1 = false := by
  have hbox : boxSide 1 1 = 201 / 100 := by rw [boxSide]; norm_num
  have hlt : 1 + 1 <
      (([⟨0,0,0⟩, ⟨1,0,0⟩, ⟨1,1/2,0⟩] : List Vec3).take 3).length := by
    norm_num
  have hsq : sqLt (minImageDistSq (boxSide 1 1)
      ((([⟨0,0,0⟩, ⟨1,0,0⟩, ⟨1,1/2,0⟩] : List Vec3).take 3).getD 1 0)
      ((([⟨0,0,0⟩, ⟨1,0,0⟩, ⟨1,1/2,0⟩] : List Vec3).take 3).getD 2 0))
        (1 - 0) := by
    show sqLt (minImageDistSq (boxSide 1 1) ⟨1,0,0⟩ ⟨1,1/2,0⟩) (1 - 0)
    rw [minImageDistSq_eq _ _ _ (by rw [hbox]; norm_num)
      (by rw [hbox]; norm_num [Vec3.sub_def, abs_lt])
      (by rw [hbox]; norm_num [Vec3.sub_def, abs_lt])
      (by rw [hbox]; norm_num [Vec3.sub_def, abs_lt])]
    constructor
    · norm_num
    · rw [show Vec3.distSq (⟨1,0,0⟩ : Vec3) ⟨1,1/2,0⟩ = 1 / 4 by
        norm_num [Vec3.distSq, Vec3.normSq, Vec3.sub_def]]
      norm_num
  exact ⟨(bonded_neighbor_exclusion [⟨0,0,0⟩, ⟨1,0,0⟩, ⟨9,9,9⟩] 1 0 1 1
      ⟨7,7,7⟩).1,
    hlt, hsq,
    (bonded_neighbor_exclusion [⟨0,0,0⟩, ⟨1,0,0⟩, ⟨1,1/2,0⟩] 1 0 1 1
      ⟨7,7,7⟩).2 hlt hsq⟩

/-! ## Claim C4 -/

theorem kdQueryBallPoint_nodup {m : ℕ} (data : List (Pt m)) (x : Pt m)
    (r : ℚ) : (kdQueryBallPoint data x r).Nodup :=
  List.Nodup.filter _ (List.nodup_range _)

/-- Counting occurrences in a concatenation of duplicate-free blocks: an
index appears once per block containing it. -/
theorem count_flatMap_countP {m : ℕ} (l : List (Pt m)) (f : Pt m → List ℕ)
    (i : ℕ) (hf : ∀ b, (f b).Nodup) :
    (l.flatMap f).count i = l.countP (fun b => decide (i ∈ f b)) := by
  induction l with
  | nil => rfl
  | cons b l ih =>
    rw [List.flatMap_cons, List.count_append, ih, List.countP_cons]
    have hcnt : (f b).count i = if decide (i ∈ f b) = true then 1 else 0 := by
      by_cases hmem : i ∈ f b
      · rw [if_pos (decide_eq_true hmem)]
        exact List.count_eq_one_of_mem (hf b) hmem
      · rw [if_neg (by simpa using hmem)]
        exact List.count_eq_zero_of_not_mem hmem
    rw [hcnt]
    exact Nat.add_comm _ _

/-- The canonical-cell mapping leaves a coordinate already inside the cell
unchanged. -/
theorem wrapCoord_eq_self {x L : ℚ} (hL : 0 < L) (hx0 : 0 ≤ x)
    (hxL : x < L) : wrapCoord x L = x := by
  rw [wrapCoord, if_pos hL]
  have h0 : ⌊x / L⌋ = 0 := by
    rw [Int.floor_eq_zero_iff]
    exact ⟨div_nonneg hx0 hL.le, (div_lt_one hL).mpr hxL⟩
  rw [h0]
  simp

/-- `max_distance_upper_bound` for a single periodic axis of length `L`. -/
theorem maxDistanceUpperBound_one {L : ℚ} (hL : 0 < L) :
    maxDistanceUpperBound (m := 1) (fun _ => L) = some (L / 2) := by
  rw [maxDistanceUpperBound,
    show List.finRange 1 = [(0 : Fin 1)] from by decide,
    List.foldl_cons, List.foldl_nil]
  dsimp only
  rw [if_pos hL]

/-- Squared distance in one dimension. -/
theorem Pt.distSq_one (a b : Pt 1) : Pt.distSq a b = (a 0 - b 0) ^ 2 := by
  rw [Pt.distSq]
  exact Fin.sum_univ_one _

/-- The reference radius query over a single data point. -/
theorem kdQueryBallPoint_singleton (y z : Pt 1) (r : ℚ) :
    kdQueryBallPoint [y] z r =
      if 0 ≤ r ∧ Pt.distSq y z ≤ r ^ 2 then [0] else [] := by
  rw [kdQueryBallPoint]
  show (List.range 1).filter _ = _
  rw [show List.range 1 = [0] from by simp [List.range_succ],
    List.filter_cons, List.filter_nil]
  simp only [List.getD_cons_zero]
  by_cases h : 0 ≤ r ∧ Pt.distSq y z ≤ r ^ 2
  · rw [if_pos (decide_eq_true h), if_pos h]
  · rw [if_neg (by simpa using h), if_neg h]

/-- `_gen_relevant_images` on one periodic axis, for a query point already
in the canonical cell, close to the lower face and away from the upper
face: the base image plus the `+L` image. -/
theorem genRelevantImages_one {L xq b : ℚ} (hL : 0 < L) (hx0 : 0 ≤ xq)
    (hxL : xq < L) (hlow : |xq| < b) (hhigh : ¬ |L - xq| < b) :
    genRelevantImages (m := 1) (fun _ => xq) (fun _ => L) (some b) =
      [fun _ => xq, fun _ => xq + L] := by
  have hwp : wrapPoint (m := 1) (fun _ => xq) (fun _ => L) = fun _ => xq := by
    funext i
    show wrapCoord xq L = xq
    exact wrapCoord_eq_self hL hx0 hxL
  rw [genRelevantImages,
    show List.finRange 1 = [(0 : Fin 1)] from by decide,
    List.foldl_cons, List.foldl_nil, hwp]
  dsimp only
  rw [if_pos hL, if_pos hlow, if_neg hhigh]
  simp only [List.map_cons, List.map_nil, List.append_nil, List.nil_append,
    List.cons_append]
  congr 1
  congr 1
  funext i
  show xq + axisDisp (fun _ => L) 0 i = xq + L
  rw [axisDisp, if_pos (Fin.eq_zero i)]

/-- C4 counterexample: duplicates are not removed.  In a 1-dimensional box
of length 2, with one data point at 1, querying from 0 with radius 1
(the capped maximum) returns `[0, 0]`: the data point is at distance
exactly 1 from both the query point and its `+L` mirror image, so its
index is reported once per image. -/
theorem periodicQueryBall_duplicate_counterexample :
    periodicQueryBallPoint (m := 1) (fun _ => 2) [fun _ => 1] (fun _ => 0) 1 =
      [0, 0] ∧
    ¬ (periodicQueryBallPoint (m := 1) (fun _ => 2) [fun _ => 1]
      (fun _ => 0) 1).Nodup := by
  have hrc : rCapped (m := 1) (fun _ => (2 : ℚ)) 1 = 1 := by
    rw [rCapped, maxDistanceUpperBound_one (by norm_num)]
    norm_num
  have hwd : wrapData (m := 1) (fun _ => 2) [fun _ => 1] = [fun _ => 1] := by
    rw [wrapData]
    simp only [List.map_cons, List.map_nil]
    congr 1
    funext i
    show wrapCoord 1 2 = 1
    rw [wrapCoord_eq_self] <;> norm_num
  have heq : periodicQueryBallPoint (m := 1) (fun _ => 2) [fun _ => 1]
      (fun _ => 0) 1 = [0, 0] := by
    rw [periodicQueryBallPoint, hrc, hwd,
      genRelevantImages_one (by norm_num) (le_refl 0) (by norm_num)
        (by norm_num) (by norm_num),
      List.flatMap_cons, List.flatMap_cons, List.flatMap_nil,
      kdQueryBallPoint_singleton, kdQueryBallPoint_singleton,
      if_pos ⟨by norm_num, by rw [Pt.distSq_one]; norm_num⟩,
      if_pos ⟨by norm_num, by rw [Pt.distSq_one]; norm_num⟩]
    rfl
  exact ⟨heq, by rw [heq]; decide⟩

/-- C4 (amended): `query_ball_point` returns the concatenation, over all
relevant mirror images of the query point, of the ordinary radius-query
results.  As a set this is the union — an index is returned iff some image
finds it — but duplicates are not removed: an index occurs exactly once per
mirror image whose radius query contains it, so it can occur more than once
(when a point is at distance exactly `r` from two images). -/
theorem periodicQueryBallPoint_union {m : ℕ} (bounds : Pt m)
    (data : List (Pt m)) (x : Pt m) (r : ℚ) :
    (∀ i, i ∈ periodicQueryBallPoint bounds data x r ↔
      ∃ im, im ∈ genRelevantImages x bounds (some (rCapped bounds r)) ∧
        i ∈ kdQueryBallPoint (wrapData bounds data) im (rCapped bounds r)) ∧
    (∀ i, (periodicQueryBallPoint bounds data x r).count i =
      (genRelevantImages x bounds (some (rCapped bounds r))).countP
        (fun im => decide (i ∈ kdQueryBallPoint (wrapData bounds data) im
          (rCapped bounds r)))) := by
  constructor
  · intro i
    rw [periodicQueryBallPoint]
    exact List.mem_flatMap
  · intro i
    rw [periodicQueryBallPoint]
    exact count_flatMap_countP _ _ _ (fun b => kdQueryBallPoint_nodup _ _ _)

/-! ## Claim C7 -/

/-- C7 counterexample: box length 10, radius 2, query point at `ε = 1` from
the lower face, data point at `ε' = 1` from the opposite face (position 9).
Here `ε + ε' = 2 ≥ r = 2`, yet the point IS found (the underlying radius
query is inclusive of the boundary: the `+L` image of the query point is at
distance exactly 2 from the data point). -/
theorem periodic_neighbor_boundary_counterexample :
    periodicQueryBallPoint (m := 1) (fun _ => 10) [fun _ => 9]
      (fun _ => 1) 2 = [0] ∧ ((2 : ℚ) ≤ 1 + 1) := by
  constructor
  · have hrc : rCapped (m := 1) (fun _ => (10 : ℚ)) 2 = 2 := by
      rw [rCapped, maxDistanceUpperBound_one (by norm_num)]
      norm_num
    have hwd : wrapData (m := 1) (fun _ => 10) [fun _ => 9] =
        [fun _ => 9] := by
      rw [wrapData]
      simp only [List.map_cons, List.map_nil]
      congr 1
      funext i
      show wrapCoord 9 10 = 9
      rw [wrapCoord_eq_self] <;> norm_num
    rw [periodicQueryBallPoint, hrc, hwd,
      genRelevantImages_one (by norm_num) (by norm_num) (by norm_num)
        (by norm_num) (by norm_num),
      List.flatMap_cons, List.flatMap_cons, List.flatMap_nil,
      kdQueryBallPoint_singleton, kdQueryBallPoint_singleton]
    rw [if_neg, if_pos]
    · rfl
    · refine ⟨by norm_num, ?_⟩
      rw [Pt.distSq_one]
      norm_num
    · rintro ⟨_, hd⟩
      rw [Pt.distSq_one] at hd
      norm_num at hd
  · norm_num

/-- C7 (amended): on a periodic axis of length `L` with radius `r ≤ L/2`, a
query point at distance `ε < r` from the lower face finds a data point at
distance `ε'` from the opposite face **iff `ε + ε' ≤ r`** — the boundary
case `ε + ε' = r` is a hit, because the underlying radius query includes
points at distance exactly `r`; for `ε + ε' > r` the point is not found.
The claim's strict form ("not found when `ε + ε' ≥ r`") fails only at
equality. -/
theorem periodic_neighbor_found_iff (L r eps eps2 : ℚ)
    (hL : 0 < L) (hr : 0 < r) (hrL : r ≤ L / 2) (he0 : 0 ≤ eps)
    (her : eps < r) (he2 : 0 < eps2) (hsum : eps + eps2 ≤ L / 2) :
    (0 ∈ periodicQueryBallPoint (m := 1) (fun _ => L) [fun _ => L - eps2]
      (fun _ => eps) r) ↔ eps + eps2 ≤ r := by
  have hrc : rCapped (m := 1) (fun _ => L) r = r := by
    rw [rCapped, maxDistanceUpperBound_one hL]
    exact min_eq_left hrL
  have hyL : L - eps2 < L := by linarith
  have hwd : wrapData (m := 1) (fun _ => L) [fun _ => L - eps2] =
      [fun _ => L - eps2] := by
    rw [wrapData]
    simp only [List.map_cons, List.map_nil]
    congr 1
    funext i
    show wrapCoord (L - eps2) L = L - eps2
    exact wrapCoord_eq_self hL (by linarith) hyL
  have hlow : |eps| < r := by rw [abs_of_nonneg he0]; exact her
  have hhigh : ¬ |L - eps| < r := by
    rw [abs_of_nonneg (by linarith : (0 : ℚ) ≤ L - eps), not_lt]
    linarith
  rw [periodicQueryBallPoint, hrc, hwd,
    genRelevantImages_one hL he0 (by linarith) hlow hhigh,
    List.flatMap_cons, List.flatMap_cons, List.flatMap_nil, List.append_nil,
    kdQueryBallPoint_singleton, kdQueryBallPoint_singleton,
    Pt.distSq_one, Pt.distSq_one]
  constructor
  · intro hmem
    rcases List.mem_append.mp hmem with hm | hm
    · by_cases hc : 0 ≤ r ∧ (L - eps2 - eps) ^ 2 ≤ r ^ 2
      · have ha : r ≤ L - eps2 - eps := by linarith
        nlinarith [hc.2, ha, hr]
      · rw [if_neg hc] at hm
        exact absurd hm (List.not_mem_nil 0)
    · by_cases hc : 0 ≤ r ∧ (L - eps2 - (eps + L)) ^ 2 ≤ r ^ 2
      · have hsq : (eps + eps2) ^ 2 ≤ r ^ 2 := by nlinarith [hc.2]
        nlinarith [hsq, hr, he0, he2]
      · rw [if_neg hc] at hm
        exact absurd hm (List.not_mem_nil 0)
  · intro hle
    apply List.mem_append.mpr
    right
    rw [if_pos ⟨hr.le, by nlinarith [hle, he0, he2]⟩]
    exact List.mem_singleton.mpr rfl

/-- Witness for C7's amended theorem at `L = 10`, `r = 2`, `ε = 1`,
`ε' = 1/2`: found, and `1 + 1/2 ≤ 2`. -/
theorem periodic_neighbor_found_iff_witness :
    ((0 : ℚ) < 10 ∧ (0 : ℚ) < 2 ∧ (2 : ℚ) ≤ 10 / 2 ∧ (0 : ℚ) ≤ 1 ∧
      (1 : ℚ) < 2 ∧ (0 : ℚ) < 1 / 2 ∧ (1 : ℚ) + 1 / 2 ≤ 10 / 2) ∧
    ((0 ∈ periodicQueryBallPoint (m := 1) (fun _ => 10) [fun _ => 10 - 1 / 2]
      (fun _ => 1) 2) ↔ (1 : ℚ) + 1 / 2 ≤ 2) :=
  ⟨⟨by norm_num, by norm_num, by norm_num, by norm_num, by norm_num,
    by norm_num, by norm_num⟩,
   periodic_neighbor_found_iff 10 2 1 (1 / 2) (by norm_num) (by norm_num)
     (by norm_num) (by norm_num) (by norm_num) (by norm_num) (by norm_num)⟩
